import Mathlib

/-
  Verification of the shared_recursive_mutex repository.

  Three implementations are embedded, one namespace each:
  * `CV`   — mtx::shared_recursive_mutex from
             include/shared_recursive_mutex/shared_recursive_mutex_condition_variable.hpp
             (the hand-rolled monitor: one mutex, two condition variables).
  * `Fast` — mtx::shared_recursive_mutex_t from
             include/shared_recursive_mutex/shared_recursive_mutex.hpp
             (thread-local counters over a std::shared_mutex gate).
  * `Cpp`  — recursive_shared_mutex from src/shared_recursive_mutex.cpp
             (an older monitor variant without the upgrade bookkeeping).

  Modelling conventions.
  * Thread ids are naturals; `std::thread::id()` (the null id) is `Option.none`.
  * `std::unordered_map<std::thread::id, uint32_t>` is an association list
    `List (Nat × Nat)`; lookup, erase, in-place update, `emplace` and the
    `++map[k]` idiom are defined below and mirror the container's semantics
    (keys are unique in every reachable state).
  * Every ownership counter in the source is a uint32_t; increments and
    decrements are modelled with exact wraparound arithmetic (`inc32`,
    `dec32`), so that states the real program reaches by wrapping a counter
    (for example 2^32 nested acquisitions) are represented faithfully.
  * Blocking: each operation of the monitor variants is split at its
    condition-variable waits into atomic sections (the internal mutex is held
    for a whole section).  An entry function runs the section up to the first
    wait and reports the resulting `Phase`; a resume step may fire only when
    the wait condition of that phase is false, exactly the re-check the
    while-loop performs under the mutex.  Condition-variable notifications
    affect scheduling only and have no effect on the abstract state.
  * Gate calls of the Fast variant that can block return `Option`; `none`
    means the call would suspend in the given gate state.
  * Assertions: an operation whose assert fires returns `none`; such a call is
    not a step of the transition system (callers are required to respect the
    locking discipline, which the step relation encodes, including the scoped
    last-acquired-first-released order that scoped acquisition wrappers give).
-/

/-- Decrement of a `uint32_t`, with the wraparound `0 - 1 = 4294967295`. -/
def dec32 (n : Nat) : Nat := (n + 4294967295) % 4294967296

/-- Increment of a `uint32_t`, with the wraparound `4294967295 + 1 = 0`. -/
def inc32 (n : Nat) : Nat := (n + 1) % 4294967296

/-- Lookup in an association list keyed by thread id, as
`std::unordered_map::find`: the depth stored for `t`, if present. -/
def findDepth : List (Nat × Nat) → Nat → Option Nat
  | [], _ => none
  | p :: r, t => if p.1 = t then some p.2 else findDepth r t

/-- Erase the entry of `t`, as `std::unordered_map::erase(it)` (keys are
unique, so removing every occurrence removes the one entry). -/
def eraseKey : List (Nat × Nat) → Nat → List (Nat × Nat)
  | [], _ => []
  | p :: r, t => if p.1 = t then eraseKey r t else p :: eraseKey r t

/-- Replace the value stored for `t` (first occurrence), the in-place
`it->second = v` update of an existing entry. -/
def replaceKey : List (Nat × Nat) → Nat → Nat → List (Nat × Nat)
  | [], _, _ => []
  | p :: r, t, v => if p.1 = t then (t, v) :: r else p :: replaceKey r t v

/-- Insert `(t, v)` only when `t` is absent, as `std::unordered_map::emplace`. -/
def emplaceKey (m : List (Nat × Nat)) (t v : Nat) : List (Nat × Nat) :=
  match findDepth m t with
  | some _ => m
  | none => (t, v) :: m

/-- The assignment `map[t] = v`: overwrite when present, insert otherwise. -/
def setKey (m : List (Nat × Nat)) (t v : Nat) : List (Nat × Nat) :=
  match findDepth m t with
  | some _ => replaceKey m t v
  | none => (t, v) :: m

/-- The idiom `++map[t]`: `operator[]` default-inserts 0, then increments. -/
def incKey (m : List (Nat × Nat)) (t : Nat) : List (Nat × Nat) :=
  match findDepth m t with
  | some d => replaceKey m t (inc32 d)
  | none => (t, 1) :: m

/-- Where a thread stands inside a (possibly blocking) monitor operation:
running no operation, blocked in `lock()` on the write queue (carrying the
local `readersOnThisThread`), blocked in `lock()` on the read queue, or
blocked in `lock_shared()` on the write queue. -/
inductive Phase : Type
  | idle : Phase
  | waitW : Nat → Phase
  | waitR : Phase
  | waitS : Phase
deriving DecidableEq

/-- Kind of one nested acquisition held by a thread: an exclusive `lock()` or
a `lock_shared()`. -/
inductive Acq : Type
  | excl : Acq
  | shrd : Acq
deriving DecidableEq

namespace CV

/-- Fields of mtx::shared_recursive_mutex (condition-variable header):
`m_writerThreadId`, `m_writersOwnership`, `m_readerOwnershipBeforeUpgrade`,
`m_readersOwnership`.  All counters are uint32_t in the source; every
increment and decrement below is the wrapping `inc32` / `dec32`. -/
structure State : Type where
  writerThreadId : Option Nat
  writersOwnership : Nat
  readerOwnershipBeforeUpgrade : Nat
  readersOwnership : List (Nat × Nat)
deriving DecidableEq

/-- The section of `lock()` that runs after the writers-wait loop exits:
remember a nonzero pre-upgrade reader depth, install the caller as writer at
depth 1, then either return (read map empty) or block on the read queue. -/
def lockAcquire (s : State) (t saved : Nat) : State × Phase :=
  let s1 := if saved ≠ 0 then { s with readerOwnershipBeforeUpgrade := saved } else s
  let s2 := { s1 with writerThreadId := some t, writersOwnership := 1 }
  if s2.readersOwnership.length ≠ 0 then (s2, Phase.waitR) else (s2, Phase.idle)

/-- Entry section of `lock()`: reentrant increment for the current writer;
otherwise drop the caller's own reader entry (keeping its depth in hand) and
either block on the write queue while a writer is active or fall through to
`lockAcquire`. -/
def lockEnter (s : State) (t : Nat) : State × Phase :=
  if s.writerThreadId = some t then
    ({ s with writersOwnership := inc32 s.writersOwnership }, Phase.idle)
  else
    match findDepth s.readersOwnership t with
    | some d =>
      let s1 := { s with readersOwnership := eraseKey s.readersOwnership t }
      if 0 < s1.writersOwnership then (s1, Phase.waitW d) else lockAcquire s1 t d
    | none =>
      if 0 < s.writersOwnership then (s, Phase.waitW 0) else lockAcquire s t 0

/-- Entry section of `lock_shared()`: reentrant increment for the writer,
increment of an existing reader entry, otherwise block on the write queue
while a writer is active or create the entry at depth 1. -/
def lockSharedEnter (s : State) (t : Nat) : State × Phase :=
  if s.writerThreadId = some t then
    ({ s with writersOwnership := inc32 s.writersOwnership }, Phase.idle)
  else
    match findDepth s.readersOwnership t with
    | some d =>
      ({ s with readersOwnership := replaceKey s.readersOwnership t (inc32 d) }, Phase.idle)
    | none =>
      if 0 < s.writersOwnership then (s, Phase.waitS)
      else ({ s with readersOwnership := emplaceKey s.readersOwnership t 1 }, Phase.idle)

/-- The section of `lock_shared()` after the writers-wait loop exits: create
the caller's reader entry at depth 1. -/
def sharedAcquire (s : State) (t : Nat) : State :=
  { s with readersOwnership := emplaceKey s.readersOwnership t 1 }

/-- Body of `unlock()`: `none` when the caller is not the writer (the assert
fires); otherwise decrement the depth, and on the last level restore a
remembered pre-upgrade reader depth and release exclusive ownership. -/
def unlock (s : State) (t : Nat) : Option State :=
  if s.writerThreadId ≠ some t then none
  else if s.writersOwnership ≠ 1 then
    some { s with writersOwnership := dec32 s.writersOwnership }
  else
    let s1 :=
      if s.readerOwnershipBeforeUpgrade ≠ 0 then
        { s with
            readersOwnership := setKey s.readersOwnership t s.readerOwnershipBeforeUpgrade,
            readerOwnershipBeforeUpgrade := 0 }
      else s
    some { s1 with writersOwnership := 0, writerThreadId := none }

/-- Body of `unlock_shared()`: for the writer, decrement the write depth and
fail (`none`) when the assert `m_writersOwnership > 0` would fire; for a
reader, decrement its entry, erasing it at depth 1; `none` when the caller
holds nothing (the find assert fires). -/
def unlockShared (s : State) (t : Nat) : Option State :=
  if s.writerThreadId = some t then
    if 0 < dec32 s.writersOwnership then
      some { s with writersOwnership := dec32 s.writersOwnership }
    else none
  else
    match findDepth s.readersOwnership t with
    | none => none
    | some d =>
      if d ≠ 1 then
        some { s with readersOwnership := replaceKey s.readersOwnership t (dec32 d) }
      else
        some { s with readersOwnership := eraseKey s.readersOwnership t }

/-- Body of `try_lock()`: reentrant success for the writer; fresh success only
when there are no readers and no (pending or owning) writer; otherwise fail
with the state untouched. -/
def tryLock (s : State) (t : Nat) : Bool × State :=
  if s.writerThreadId = some t then
    (true, { s with writersOwnership := inc32 s.writersOwnership })
  else if s.readersOwnership.length = 0 ∧ s.writersOwnership = 0 then
    (true, { s with writerThreadId := some t, writersOwnership := 1 })
  else (false, s)

/-- Body of `try_lock_shared()`: reentrant success for the writer; success
with `++m_readersOwnership[t]` when no writer is active or pending; otherwise
fail with the state untouched. -/
def tryLockShared (s : State) (t : Nat) : Bool × State :=
  if s.writerThreadId = some t then
    (true, { s with writersOwnership := inc32 s.writersOwnership })
  else if s.writersOwnership = 0 then
    (true, { s with readersOwnership := incKey s.readersOwnership t })
  else (false, s)

end CV

namespace Fast

/-- The two thread-local counters `g_readers`, `g_writers` of one thread in
mtx::shared_recursive_mutex_t (uint32_t each). -/
structure TL : Type where
  g_readers : Nat
  g_writers : Nat
deriving DecidableEq

/-- Abstract state of the std::shared_mutex gate: whether a writer holds it
and how many shared holds are out. -/
structure Gate : Type where
  writer : Bool
  readers : Nat
deriving DecidableEq

/-- Gate `lock()`: succeeds only when no writer and no readers hold it;
otherwise the caller would block (`none`). -/
def gateLock (g : Gate) : Option Gate :=
  if g.writer = false ∧ g.readers = 0 then some { g with writer := true } else none

/-- Gate `unlock()`: release the exclusive hold. -/
def gateUnlock (g : Gate) : Gate := { g with writer := false }

/-- Gate `lock_shared()`: succeeds when no writer holds it; otherwise the
caller would block (`none`). -/
def gateLockShared (g : Gate) : Option Gate :=
  if g.writer = false then some { g with readers := g.readers + 1 } else none

/-- Gate `unlock_shared()`: release one shared hold. -/
def gateUnlockShared (g : Gate) : Gate := { g with readers := g.readers - 1 }

/-- Gate `try_lock()`. -/
def gateTryLock (g : Gate) : Bool × Gate :=
  if g.writer = false ∧ g.readers = 0 then (true, { g with writer := true }) else (false, g)

/-- Gate `try_lock_shared()`. -/
def gateTryLockShared (g : Gate) : Bool × Gate :=
  if g.writer = false then (true, { g with readers := g.readers + 1 }) else (false, g)

/-- shared_recursive_mutex_t::lock(): acquire the gate when holding nothing,
release-and-reacquire (shared, then exclusive) when holding only read access,
then `++g_writers` in every branch.  `none` when the gate acquisition would
block. -/
def lock (l : TL) (g : Gate) : Option (TL × Gate) :=
  if l.g_writers = 0 ∧ l.g_readers = 0 then
    (gateLock g).map fun g1 => ({ l with g_writers := l.g_writers + 1 }, g1)
  else if l.g_writers = 0 ∧ 0 < l.g_readers then
    (gateLock (gateUnlockShared g)).map fun g1 =>
      ({ l with g_writers := l.g_writers + 1 }, g1)
  else some ({ l with g_writers := l.g_writers + 1 }, g)

/-- shared_recursive_mutex_t::lock_shared(). -/
def lockShared (l : TL) (g : Gate) : Option (TL × Gate) :=
  if 0 < l.g_writers then some ({ l with g_writers := l.g_writers + 1 }, g)
  else if 0 < l.g_readers then some ({ l with g_readers := l.g_readers + 1 }, g)
  else (gateLockShared g).map fun g1 => ({ l with g_readers := l.g_readers + 1 }, g1)

/-- shared_recursive_mutex_t::unlock(): `--g_writers` (uint32_t, so the
unmatched call wraps to 4294967295 and returns early); at zero release the
gate and re-acquire shared access when `g_readers > 0`.  `none` when the
shared re-acquisition would block. -/
def unlock (l : TL) (g : Gate) : Option (TL × Gate) :=
  let w1 := dec32 l.g_writers
  if 0 < w1 then some ({ l with g_writers := w1 }, g)
  else
    let g1 := gateUnlock g
    if 0 < l.g_readers then
      (gateLockShared g1).map fun g2 => ({ l with g_writers := w1 }, g2)
    else some ({ l with g_writers := w1 }, g1)

/-- shared_recursive_mutex_t::unlock_shared(): delegate to `unlock()` while
`g_writers > 0`; otherwise `--g_readers` (uint32_t wraparound when unmatched)
and release the gate's shared hold at zero. -/
def unlockShared (l : TL) (g : Gate) : Option (TL × Gate) :=
  if 0 < l.g_writers then unlock l g
  else
    let r1 := dec32 l.g_readers
    if r1 = 0 then some ({ l with g_readers := r1 }, gateUnlockShared g)
    else some ({ l with g_readers := r1 }, g)

/-- shared_recursive_mutex_t::try_lock(): reentrant success for a writer;
false for a shared-only holder (no upgrade); otherwise a gate try_lock. -/
def tryLock (l : TL) (g : Gate) : Bool × TL × Gate :=
  if 0 < l.g_writers then (true, { l with g_writers := l.g_writers + 1 }, g)
  else if 0 < l.g_readers then (false, l, g)
  else
    let p := gateTryLock g
    if p.1 then (true, { l with g_writers := l.g_writers + 1 }, p.2) else (false, l, p.2)

/-- shared_recursive_mutex_t::try_lock_shared(): when any hold exists this is
exactly `lock_shared()` (which then never blocks); otherwise a gate
try_lock_shared. -/
def tryLockShared (l : TL) (g : Gate) : Bool × TL × Gate :=
  if 0 < l.g_writers ∨ 0 < l.g_readers then
    match lockShared l g with
    | some p => (true, p.1, p.2)
    | none => (false, l, g)
  else
    let p := gateTryLockShared g
    if p.1 then (true, { l with g_readers := l.g_readers + 1 }, p.2) else (false, l, p.2)

/-- shared_recursive_mutex_t::is_locked(). -/
def isLocked (l : TL) : Bool := 0 < l.g_writers

/-- shared_recursive_mutex_t::is_locked_shared(). -/
def isLockedShared (l : TL) : Bool := 0 < l.g_readers ∧ l.g_writers = 0

end Fast

namespace Cpp

/-- Fields of recursive_shared_mutex (src/shared_recursive_mutex.cpp):
`_writerThreadId`, `_writersOwnership`, `_readersOwnership`.  This variant has
no pre-upgrade bookkeeping. -/
structure State : Type where
  writerThreadId : Option Nat
  writersOwnership : Nat
  readersOwnership : List (Nat × Nat)
deriving DecidableEq

/-- The section of recursive_shared_mutex::lock() after the writers-wait
loop: install the caller as writer, then wait for the read map to drain. -/
def lockAcquire (s : State) (t : Nat) : State × Phase :=
  let s2 := { s with writerThreadId := some t, writersOwnership := 1 }
  if s2.readersOwnership.length ≠ 0 then (s2, Phase.waitR) else (s2, Phase.idle)

/-- Entry section of recursive_shared_mutex::lock(): reentrant increment for
the writer, otherwise wait for writers to drain and acquire.  Unlike the
header variant, the caller's own reader entry is never released. -/
def lockEnter (s : State) (t : Nat) : State × Phase :=
  if s.writerThreadId = some t then
    ({ s with writersOwnership := s.writersOwnership + 1 }, Phase.idle)
  else if 0 < s.writersOwnership then (s, Phase.waitW 0)
  else lockAcquire s t

/-- Entry section of recursive_shared_mutex::lock_shared(). -/
def lockSharedEnter (s : State) (t : Nat) : State × Phase :=
  if s.writerThreadId = some t then
    ({ s with writersOwnership := s.writersOwnership + 1 }, Phase.idle)
  else
    match findDepth s.readersOwnership t with
    | some d =>
      ({ s with readersOwnership := replaceKey s.readersOwnership t (d + 1) }, Phase.idle)
    | none =>
      if 0 < s.writersOwnership then (s, Phase.waitS)
      else ({ s with readersOwnership := emplaceKey s.readersOwnership t 1 }, Phase.idle)

/-- The section of recursive_shared_mutex::lock_shared() after the
writers-wait loop. -/
def sharedAcquire (s : State) (t : Nat) : State :=
  { s with readersOwnership := emplaceKey s.readersOwnership t 1 }

/-- recursive_shared_mutex::unlock(): as the header variant but with no
pre-upgrade reader depth to restore. -/
def unlock (s : State) (t : Nat) : Option State :=
  if s.writerThreadId ≠ some t then none
  else if s.writersOwnership ≠ 1 then
    some { s with writersOwnership := s.writersOwnership - 1 }
  else some { s with writersOwnership := 0, writerThreadId := none }

/-- recursive_shared_mutex::unlock_shared(): identical to the header
variant. -/
def unlockShared (s : State) (t : Nat) : Option State :=
  if s.writerThreadId = some t then
    if 0 < s.writersOwnership - 1 then
      some { s with writersOwnership := s.writersOwnership - 1 }
    else none
  else
    match findDepth s.readersOwnership t with
    | none => none
    | some d =>
      if d ≠ 1 then
        some { s with readersOwnership := replaceKey s.readersOwnership t (d - 1) }
      else
        some { s with readersOwnership := eraseKey s.readersOwnership t }

/-- recursive_shared_mutex::try_lock(). -/
def tryLock (s : State) (t : Nat) : Bool × State :=
  if s.writerThreadId = some t then
    (true, { s with writersOwnership := s.writersOwnership + 1 })
  else if s.readersOwnership.length = 0 ∧ s.writersOwnership = 0 then
    (true, { s with writerThreadId := some t, writersOwnership := 1 })
  else (false, s)

/-- recursive_shared_mutex::try_lock_shared(). -/
def tryLockShared (s : State) (t : Nat) : Bool × State :=
  if s.writerThreadId = some t then
    (true, { s with writersOwnership := s.writersOwnership + 1 })
  else if s.writersOwnership = 0 then
    (true, { s with readersOwnership := incKey s.readersOwnership t })
  else (false, s)

end Cpp

/-- Pointwise update of a thread-indexed map of phases. -/
def updPh (f : Nat → Phase) (t : Nat) (p : Phase) : Nat → Phase :=
  fun u => if u = t then p else f u

/-- Pointwise update of a thread-indexed map of acquisition stacks. -/
def updWst (f : Nat → List Acq) (t : Nat) (l : List Acq) : Nat → List Acq :=
  fun u => if u = t then l else f u

namespace CV

/-- Global configuration of the monitor variant: the shared fields, each
thread's position inside a blocking call, and a ghost stack per thread
recording the acquisitions it made while being the writer (most recent
first).  The ghost stacks carry no information the implementation uses; they
only express the callers' scoped locking discipline. -/
structure GState : Type where
  sh : State
  ph : Nat → Phase
  wst : Nat → List Acq

/-- Ghost-stack effect of a `lock()` call: a reentrant call pushes one
exclusive hold; a call that (eventually) acquires afresh starts the stack at
one exclusive hold. -/
def lockGhost (s : State) (t : Nat) (old : List Acq) : List Acq :=
  if s.writerThreadId = some t then Acq.excl :: old else [Acq.excl]

/-- Ghost-stack effect of a `lock_shared()` call: only a call by the current
writer adds to its writer-phase stack. -/
def sharedGhost (s : State) (t : Nat) (old : List Acq) : List Acq :=
  if s.writerThreadId = some t then Acq.shrd :: old else old

/-- Ghost-stack effect of a `try_lock()` call. -/
def tryLockGhost (s : State) (t : Nat) (old : List Acq) : List Acq :=
  if s.writerThreadId = some t then Acq.excl :: old
  else if (tryLock s t).1 then [Acq.excl] else old

/-- Ghost-stack effect of a `try_lock_shared()` call. -/
def trySharedGhost (s : State) (t : Nat) (old : List Acq) : List Acq :=
  if s.writerThreadId = some t then Acq.shrd :: old else old

/-- Ghost-stack effect of an `unlock_shared()` call: the writer pops its most
recent (shared) hold; a reader's stack is untouched. -/
def unlockSharedGhost (s : State) (t : Nat) (old : List Acq) : List Acq :=
  if s.writerThreadId = some t then old.tail else old

/-- One atomic step of thread `t` in the monitor variant.  Call steps require
the thread to be outside any operation; resume steps require the blocked
thread's wait condition to have become false (the while-loop re-check under
the internal mutex).  `unlockCall` and `unlockSharedCall` additionally require
the call to respect the scoped discipline: the hold being released is the
thread's most recently acquired open hold of that kind. -/
inductive Step (t : Nat) (g : GState) : GState → Prop
  | lockCall (g' : GState) :
    g.ph t = Phase.idle →
    g' = ⟨(lockEnter g.sh t).1, updPh g.ph t (lockEnter g.sh t).2,
          updWst g.wst t (lockGhost g.sh t (g.wst t))⟩ →
    Step t g g'
  | lockResumeW (g' : GState) (saved : Nat) :
    g.ph t = Phase.waitW saved →
    g.sh.writersOwnership = 0 →
    g' = ⟨(lockAcquire g.sh t saved).1, updPh g.ph t (lockAcquire g.sh t saved).2,
          updWst g.wst t [Acq.excl]⟩ →
    Step t g g'
  | lockResumeR (g' : GState) :
    g.ph t = Phase.waitR →
    g.sh.readersOwnership.length = 0 →
    g' = ⟨g.sh, updPh g.ph t Phase.idle, g.wst⟩ →
    Step t g g'
  | sharedCall (g' : GState) :
    g.ph t = Phase.idle →
    g' = ⟨(lockSharedEnter g.sh t).1, updPh g.ph t (lockSharedEnter g.sh t).2,
          updWst g.wst t (sharedGhost g.sh t (g.wst t))⟩ →
    Step t g g'
  | sharedResume (g' : GState) :
    g.ph t = Phase.waitS →
    g.sh.writersOwnership = 0 →
    g' = ⟨sharedAcquire g.sh t, updPh g.ph t Phase.idle, g.wst⟩ →
    Step t g g'
  | unlockCall (g' : GState) (s' : State) :
    g.ph t = Phase.idle →
    unlock g.sh t = some s' →
    (g.wst t).head? = some Acq.excl →
    g' = ⟨s', g.ph, updWst g.wst t (g.wst t).tail⟩ →
    Step t g g'
  | unlockSharedCall (g' : GState) (s' : State) :
    g.ph t = Phase.idle →
    unlockShared g.sh t = some s' →
    (g.sh.writerThreadId = some t → (g.wst t).head? = some Acq.shrd) →
    g' = ⟨s', g.ph, updWst g.wst t (unlockSharedGhost g.sh t (g.wst t))⟩ →
    Step t g g'
  | tryLockCall (g' : GState) :
    g.ph t = Phase.idle →
    g' = ⟨(tryLock g.sh t).2, g.ph, updWst g.wst t (tryLockGhost g.sh t (g.wst t))⟩ →
    Step t g g'
  | tryLockSharedCall (g' : GState) :
    g.ph t = Phase.idle →
    g' = ⟨(tryLockShared g.sh t).2, g.ph,
          updWst g.wst t (trySharedGhost g.sh t (g.wst t))⟩ →
    Step t g g'

/-- A step by some thread. -/
def steps (g g' : GState) : Prop := ∃ t, Step t g g'

/-- The freshly constructed mutex: no writer, no readers, every thread idle. -/
def init : GState :=
  ⟨⟨none, 0, 0, []⟩, fun _ => Phase.idle, fun _ => []⟩

/-- Configurations reachable from a fresh mutex under arbitrary interleaving
of disciplined calls. -/
def Reachable (g : GState) : Prop := Relation.ReflTransGen steps init g

/-- Thread `t` is the exclusive (writer) owner. -/
def holdsExclusive (g : GState) (t : Nat) : Prop := g.sh.writerThreadId = some t

/-- The inductive invariant: the writer's ghost stack is nonempty, its bottom
entry is the exclusive acquisition that made the thread writer, and the
stored uint32_t depth `m_writersOwnership` equals the number of open holds
reduced modulo 2^32 (so the stored depth is positive exactly as long as the
true nesting count has not wrapped). -/
def Inv (g : GState) : Prop :=
  ∀ t, g.sh.writerThreadId = some t →
    g.wst t ≠ [] ∧
    (g.wst t).getLast? = some Acq.excl ∧
    g.sh.writersOwnership = (g.wst t).length % 4294967296

end CV

namespace Cpp

/-- Global configuration of the cpp variant: the shared fields and each
thread's position inside a blocking call. -/
structure GState : Type where
  sh : State
  ph : Nat → Phase

/-- One atomic step of thread `t` in the cpp variant, delimited exactly as in
the monitor variant.  Calls that would fire an assert are not steps. -/
inductive Step (t : Nat) (g : GState) : GState → Prop
  | lockCall (g' : GState) :
    g.ph t = Phase.idle →
    g' = ⟨(lockEnter g.sh t).1, updPh g.ph t (lockEnter g.sh t).2⟩ →
    Step t g g'
  | lockResumeW (g' : GState) (saved : Nat) :
    g.ph t = Phase.waitW saved →
    g.sh.writersOwnership = 0 →
    g' = ⟨(lockAcquire g.sh t).1, updPh g.ph t (lockAcquire g.sh t).2⟩ →
    Step t g g'
  | lockResumeR (g' : GState) :
    g.ph t = Phase.waitR →
    g.sh.readersOwnership.length = 0 →
    g' = ⟨g.sh, updPh g.ph t Phase.idle⟩ →
    Step t g g'
  | sharedCall (g' : GState) :
    g.ph t = Phase.idle →
    g' = ⟨(lockSharedEnter g.sh t).1, updPh g.ph t (lockSharedEnter g.sh t).2⟩ →
    Step t g g'
  | sharedResume (g' : GState) :
    g.ph t = Phase.waitS →
    g.sh.writersOwnership = 0 →
    g' = ⟨sharedAcquire g.sh t, updPh g.ph t Phase.idle⟩ →
    Step t g g'
  | unlockCall (g' : GState) (s' : State) :
    g.ph t = Phase.idle →
    unlock g.sh t = some s' →
    g' = ⟨s', g.ph⟩ →
    Step t g g'
  | unlockSharedCall (g' : GState) (s' : State) :
    g.ph t = Phase.idle →
    unlockShared g.sh t = some s' →
    g' = ⟨s', g.ph⟩ →
    Step t g g'
  | tryLockCall (g' : GState) :
    g.ph t = Phase.idle →
    g' = ⟨(tryLock g.sh t).2, g.ph⟩ →
    Step t g g'
  | tryLockSharedCall (g' : GState) :
    g.ph t = Phase.idle →
    g' = ⟨(tryLockShared g.sh t).2, g.ph⟩ →
    Step t g g'

/-- A step by some thread. -/
def steps (g g' : GState) : Prop := ∃ t, Step t g g'

/-- The configuration of the cpp variant in which thread 7, which held shared
access at depth 1 with no other thread active, has performed the entry
section of `lock()`: because this variant never releases the caller's own
reader entry, thread 7 is now the installed writer blocked on the read queue
behind its own entry. -/
def stuck : GState :=
  ⟨(lockEnter ⟨none, 0, [(7, 1)]⟩ 7).1,
   updPh (fun _ => Phase.idle) 7 (lockEnter ⟨none, 0, [(7, 1)]⟩ 7).2⟩

/-- Configurations reachable from `stuck` by any interleaving of further
steps by any threads. -/
def ReachableFromStuck (g : GState) : Prop := Relation.ReflTransGen steps stuck g

end Cpp

/-- The configuration after thread 0 has called `lock()` exactly k + 1 times
on a fresh monitor mutex (one fresh acquisition and k reentrant ones) and is
otherwise idle: it is the writer, its ghost stack holds k + 1 open exclusive
holds, and the stored uint32_t depth is (k + 1) reduced modulo 2^32. -/
def cvRelock (k : Nat) : CV.GState :=
  ⟨⟨some 0, (1 + k) % 4294967296, 0, []⟩,
   updPh CV.init.ph 0 Phase.idle,
   updWst CV.init.wst 0 (List.replicate (k + 1) Acq.excl)⟩

/-- The configuration after the thread of `cvRelock (2^32 - 1)` — whose
stored writer depth has wrapped to 0 — additionally calls `lock_shared()`
while being the writer. -/
def cvWrapShared : CV.GState :=
  ⟨(CV.lockSharedEnter (cvRelock 4294967295).sh 0).1,
   updPh (cvRelock 4294967295).ph 0 (CV.lockSharedEnter (cvRelock 4294967295).sh 0).2,
   updWst (cvRelock 4294967295).wst 0
     (CV.sharedGhost (cvRelock 4294967295).sh 0 ((cvRelock 4294967295).wst 0))⟩

/-- N-fold repetition of the entry section of the monitor variant's
`lock()` by one thread (used to state reentrancy). -/
def cvLockIter (t : Nat) : Nat → CV.State → CV.State
  | 0, s => s
  | n + 1, s => cvLockIter t n (CV.lockEnter s t).1

/-- N-fold repetition of the monitor variant's `unlock()` by one thread;
`none` as soon as one call would fire an assert. -/
def cvUnlockIter (t : Nat) : Nat → CV.State → Option CV.State
  | 0, s => some s
  | n + 1, s =>
    match CV.unlock s t with
    | some s1 => cvUnlockIter t n s1
    | none => none

/-- The configuration after thread 5 succeeds in `try_lock()` on a fresh
monitor mutex: a reachable state with an exclusive owner. -/
def cvWit1 : CV.GState :=
  ⟨(CV.tryLock CV.init.sh 5).2, CV.init.ph,
   updWst CV.init.wst 5 (CV.tryLockGhost CV.init.sh 5 (CV.init.wst 5))⟩

/-- The configuration after thread 3 succeeds in `try_lock()` on a fresh
monitor mutex. -/
def cvWit8a : CV.GState :=
  ⟨(CV.tryLock CV.init.sh 3).2, CV.init.ph,
   updWst CV.init.wst 3 (CV.tryLockGhost CV.init.sh 3 (CV.init.wst 3))⟩

/-- The configuration after thread 3, already the writer, additionally calls
`lock_shared()` (a write-implied shared hold). -/
def cvWit8b : CV.GState :=
  ⟨(CV.lockSharedEnter cvWit8a.sh 3).1, updPh cvWit8a.ph 3 (CV.lockSharedEnter cvWit8a.sh 3).2,
   updWst cvWit8a.wst 3 (CV.sharedGhost cvWit8a.sh 3 (cvWit8a.wst 3))⟩

theorem findDepth_eraseKey_self (m : List (Nat × Nat)) (t : Nat) :
    findDepth (eraseKey m t) t = none := by
  induction m with
  | nil => rfl
  | cons p r ih =>
    by_cases h : p.1 = t
    · simp [eraseKey, h, ih]
    · simp [eraseKey, findDepth, h, ih]

theorem findDepth_eraseKey_ne (m : List (Nat × Nat)) {t u : Nat} (h : u ≠ t) :
    findDepth (eraseKey m t) u = findDepth m u := by
  induction m with
  | nil => rfl
  | cons p r ih =>
    by_cases hp : p.1 = t
    · have : p.1 ≠ u := by rw [hp]; exact fun hc => h hc.symm
      simp [eraseKey, findDepth, hp, this, ih, Ne.symm h]
    · by_cases hu : p.1 = u
      · simp [eraseKey, findDepth, hp, hu, h]
      · simp [eraseKey, findDepth, hp, hu, ih]

theorem findDepth_replaceKey_ne (m : List (Nat × Nat)) {t u : Nat} (v : Nat) (h : u ≠ t) :
    findDepth (replaceKey m t v) u = findDepth m u := by
  induction m with
  | nil => rfl
  | cons p r ih =>
    by_cases hp : p.1 = t
    · have ht : t ≠ u := fun hc => h hc.symm
      have : p.1 ≠ u := by rw [hp]; exact ht
      simp [replaceKey, findDepth, hp, ht, this]
    · by_cases hu : p.1 = u
      · simp [replaceKey, findDepth, hp, hu, h]
      · simp [replaceKey, findDepth, hp, hu, ih]

theorem findDepth_replaceKey_self (m : List (Nat × Nat)) {t : Nat} (v : Nat)
    (h : findDepth m t ≠ none) :
    findDepth (replaceKey m t v) t = some v := by
  induction m with
  | nil => exact absurd rfl h
  | cons p r ih =>
    by_cases hp : p.1 = t
    · simp [replaceKey, findDepth, hp]
    · have : findDepth r t ≠ none := by
        intro hc; exact h (by simp [findDepth, hp, hc])
      simp [replaceKey, findDepth, hp, ih this]

theorem findDepth_emplaceKey_ne (m : List (Nat × Nat)) {t u : Nat} (v : Nat) (h : u ≠ t) :
    findDepth (emplaceKey m t v) u = findDepth m u := by
  unfold emplaceKey
  cases hf : findDepth m t with
  | some d => rfl
  | none => simp [findDepth, Ne.symm h]

theorem findDepth_setKey_ne (m : List (Nat × Nat)) {t u : Nat} (v : Nat) (h : u ≠ t) :
    findDepth (setKey m t v) u = findDepth m u := by
  unfold setKey
  cases hf : findDepth m t with
  | some d => exact findDepth_replaceKey_ne m v h
  | none => simp [findDepth, Ne.symm h]

theorem findDepth_setKey_self (m : List (Nat × Nat)) (t v : Nat) :
    findDepth (setKey m t v) t = some v := by
  unfold setKey
  cases hf : findDepth m t with
  | some d => exact findDepth_replaceKey_self m v (by rw [hf]; exact fun h => by cases h)
  | none => simp [findDepth]

theorem findDepth_incKey_ne (m : List (Nat × Nat)) {t u : Nat} (h : u ≠ t) :
    findDepth (incKey m t) u = findDepth m u := by
  unfold incKey
  cases hf : findDepth m t with
  | some d => exact findDepth_replaceKey_ne m (inc32 d) h
  | none => simp [findDepth, Ne.symm h]

theorem findDepth_some_ne_nil {m : List (Nat × Nat)} {t d : Nat}
    (h : findDepth m t = some d) : m ≠ [] := by
  intro hc; subst hc; cases h

theorem getLast?_cons_of_ne_nil {α : Type} (a : α) {l : List α} (h : l ≠ []) :
    (a :: l).getLast? = l.getLast? := by
  cases l with
  | nil => exact absurd rfl h
  | cons b r => exact List.getLast?_cons_cons

namespace CV

theorem lockEnter_owner {s : State} {t : Nat} (h : s.writerThreadId = some t) :
    lockEnter s t = ({ s with writersOwnership := inc32 s.writersOwnership }, Phase.idle) := by
  simp [lockEnter, h]

theorem lockAcquire_writerThreadId (s : State) (t saved : Nat) :
    (lockAcquire s t saved).1.writerThreadId = some t := by
  unfold lockAcquire
  by_cases h : saved ≠ 0 <;> simp [h] <;> split <;> rfl

theorem lockAcquire_writersOwnership (s : State) (t saved : Nat) :
    (lockAcquire s t saved).1.writersOwnership = 1 := by
  unfold lockAcquire
  by_cases h : saved ≠ 0 <;> simp [h] <;> split <;> rfl

theorem lockAcquire_readersOwnership (s : State) (t saved : Nat) :
    (lockAcquire s t saved).1.readersOwnership = s.readersOwnership := by
  unfold lockAcquire
  by_cases h : saved ≠ 0 <;> simp [h] <;> split <;> rfl

theorem lockEnter_not_owner_shape {s : State} {t : Nat} (h : ¬s.writerThreadId = some t) :
    (∃ d, 0 < s.writersOwnership ∧
      (lockEnter s t).1.writerThreadId = s.writerThreadId ∧
      (lockEnter s t).1.writersOwnership = s.writersOwnership ∧
      (lockEnter s t).2 = Phase.waitW d) ∨
    (s.writersOwnership = 0 ∧
      (lockEnter s t).1.writerThreadId = some t ∧
      (lockEnter s t).1.writersOwnership = 1) := by
  unfold lockEnter
  simp only [h, if_false]
  cases hf : findDepth s.readersOwnership t with
  | some d =>
    by_cases hw : 0 < s.writersOwnership
    · exact Or.inl ⟨d, by simp [hw]⟩
    · have h0 : s.writersOwnership = 0 := by omega
      simp only [hw, if_false]
      exact Or.inr ⟨h0, lockAcquire_writerThreadId _ t d, lockAcquire_writersOwnership _ t d⟩
  | none =>
    by_cases hw : 0 < s.writersOwnership
    · exact Or.inl ⟨0, by simp [hw]⟩
    · have h0 : s.writersOwnership = 0 := by omega
      simp only [hw, if_false]
      exact Or.inr ⟨h0, lockAcquire_writerThreadId _ t 0, lockAcquire_writersOwnership _ t 0⟩

theorem lockSharedEnter_owner {s : State} {t : Nat} (h : s.writerThreadId = some t) :
    lockSharedEnter s t =
      ({ s with writersOwnership := inc32 s.writersOwnership }, Phase.idle) := by
  simp [lockSharedEnter, h]

theorem lockSharedEnter_not_owner_fields {s : State} {t : Nat}
    (h : ¬s.writerThreadId = some t) :
    (lockSharedEnter s t).1.writerThreadId = s.writerThreadId ∧
    (lockSharedEnter s t).1.writersOwnership = s.writersOwnership ∧
    (lockSharedEnter s t).1.readerOwnershipBeforeUpgrade =
      s.readerOwnershipBeforeUpgrade := by
  unfold lockSharedEnter
  simp only [h, if_false]
  cases hf : findDepth s.readersOwnership t with
  | some d => exact ⟨rfl, rfl, rfl⟩
  | none => by_cases hw : 0 < s.writersOwnership <;> simp [hw]

theorem unlock_owner {s : State} {t : Nat} {s' : State} (h : unlock s t = some s') :
    s.writerThreadId = some t := by
  by_cases hw : s.writerThreadId = some t
  · exact hw
  · simp [unlock, hw] at h

theorem unlock_shape {s : State} {t : Nat} {s' : State} (h : unlock s t = some s') :
    (s.writersOwnership ≠ 1 ∧
      s'.writerThreadId = s.writerThreadId ∧
      s'.writersOwnership = dec32 s.writersOwnership ∧
      s'.readerOwnershipBeforeUpgrade = s.readerOwnershipBeforeUpgrade ∧
      s'.readersOwnership = s.readersOwnership) ∨
    (s.writersOwnership = 1 ∧
      s'.writerThreadId = none ∧ s'.writersOwnership = 0) := by
  unfold unlock at h
  split at h
  · exact absurd h (by simp)
  · split at h
    · next h2 =>
      rw [Option.some_inj] at h
      exact Or.inl ⟨h2, by rw [← h], by rw [← h], by rw [← h], by rw [← h]⟩
    · next h2 =>
      rw [Option.some_inj] at h
      exact Or.inr ⟨not_not.mp h2, by rw [← h], by rw [← h]⟩

theorem unlockShared_writer_shape {s : State} {t : Nat} {s' : State}
    (hw : s.writerThreadId = some t) (h : unlockShared s t = some s') :
    0 < dec32 s.writersOwnership ∧
    s'.writerThreadId = s.writerThreadId ∧
    s'.writersOwnership = dec32 s.writersOwnership ∧
    s'.readerOwnershipBeforeUpgrade = s.readerOwnershipBeforeUpgrade ∧
    s'.readersOwnership = s.readersOwnership := by
  unfold unlockShared at h
  rw [if_pos hw] at h
  split at h
  · next hp =>
    rw [Option.some_inj] at h
    exact ⟨hp, by rw [← h], by rw [← h], by rw [← h], by rw [← h]⟩
  · exact absurd h (by simp)

theorem unlockShared_not_owner_fields {s : State} {t : Nat} {s' : State}
    (hw : ¬s.writerThreadId = some t) (h : unlockShared s t = some s') :
    s'.writerThreadId = s.writerThreadId ∧
    s'.writersOwnership = s.writersOwnership ∧
    s'.readerOwnershipBeforeUpgrade = s.readerOwnershipBeforeUpgrade := by
  unfold unlockShared at h
  rw [if_neg hw] at h
  split at h
  · exact absurd h (by simp)
  · split at h
    · rw [Option.some_inj] at h
      exact ⟨by rw [← h], by rw [← h], by rw [← h]⟩
    · rw [Option.some_inj] at h
      exact ⟨by rw [← h], by rw [← h], by rw [← h]⟩

end CV

theorem updWst_self (f : Nat → List Acq) (t : Nat) (l : List Acq) :
    updWst f t l t = l := by simp [updWst]

theorem updWst_ne (f : Nat → List Acq) (t : Nat) (l : List Acq) {u : Nat} (h : u ≠ t) :
    updWst f t l u = f u := by simp [updWst, h]

theorem updWst_same (f : Nat → List Acq) (t : Nat) : updWst f t (f t) = f := by
  funext u
  by_cases h : u = t <;> simp [updWst, h]

theorem inc32_mod (x : Nat) : inc32 (x % 4294967296) = (x + 1) % 4294967296 := by
  unfold inc32
  omega

theorem dec32_mod {x : Nat} (hx : 1 ≤ x) :
    dec32 (x % 4294967296) = (x - 1) % 4294967296 := by
  unfold dec32
  omega

namespace CV

theorem inv_step {t : Nat} {g g' : GState} (hi : Inv g) (hs : Step t g g') : Inv g' := by
  cases hs with
  | lockCall hph heq =>
    subst heq
    intro u hu
    dsimp only at hu ⊢
    by_cases hw : g.sh.writerThreadId = some t
    · rw [lockEnter_owner hw] at hu ⊢
      dsimp only at hu ⊢
      have hut : u = t := by
        rw [hw] at hu; exact (Option.some_inj.mp hu).symm
      subst hut
      obtain ⟨hne, hlast, hlen⟩ := hi u hw
      rw [updWst_self]
      unfold lockGhost
      rw [if_pos hw]
      refine ⟨by simp, ?_, ?_⟩
      · rw [getLast?_cons_of_ne_nil _ hne]
        exact hlast
      · rw [hlen, List.length_cons]
        exact inc32_mod _
    · rcases lockEnter_not_owner_shape hw with ⟨d, hpos, hid, hwo, hphw⟩ | ⟨h0, hid, hwo⟩
      · rw [hid] at hu
        have hut : u ≠ t := by
          intro hc; subst hc; exact hw hu
        obtain ⟨hne, hlast, hlen⟩ := hi u hu
        rw [updWst_ne _ _ _ hut]
        exact ⟨hne, hlast, by rw [hwo]; exact hlen⟩
      · rw [hid] at hu
        have hut : u = t := (Option.some_inj.mp hu.symm)
        subst hut
        rw [updWst_self]
        unfold lockGhost
        rw [if_neg hw]
        exact ⟨by simp, rfl, by rw [hwo]; norm_num⟩
  | lockResumeW saved hph hw0 heq =>
    subst heq
    intro u hu
    dsimp only at hu ⊢
    rw [lockAcquire_writerThreadId] at hu
    have hut : u = t := (Option.some_inj.mp hu.symm)
    subst hut
    rw [updWst_self, lockAcquire_writersOwnership]
    exact ⟨by simp, rfl, by norm_num⟩
  | lockResumeR hph hr heq =>
    subst heq
    exact hi
  | sharedCall hph heq =>
    subst heq
    intro u hu
    dsimp only at hu ⊢
    by_cases hw : g.sh.writerThreadId = some t
    · rw [lockSharedEnter_owner hw] at hu ⊢
      dsimp only at hu ⊢
      have hut : u = t := by
        rw [hw] at hu; exact (Option.some_inj.mp hu).symm
      subst hut
      obtain ⟨hne, hlast, hlen⟩ := hi u hw
      rw [updWst_self]
      unfold sharedGhost
      rw [if_pos hw]
      refine ⟨by simp, ?_, ?_⟩
      · rw [getLast?_cons_of_ne_nil _ hne]
        exact hlast
      · rw [hlen, List.length_cons]
        exact inc32_mod _
    · obtain ⟨hid, hwo, _⟩ := lockSharedEnter_not_owner_fields hw
      rw [hid] at hu
      have hut : u ≠ t := by
        intro hc; subst hc; exact hw hu
      obtain ⟨hne, hlast, hlen⟩ := hi u hu
      rw [updWst_ne _ _ _ hut]
      exact ⟨hne, hlast, by rw [hwo]; exact hlen⟩
  | sharedResume hph hw0 heq =>
    subst heq
    intro u hu
    dsimp only [sharedAcquire] at hu ⊢
    exact hi u hu
  | unlockCall s' hph hun hhd heq =>
    subst heq
    have hw := unlock_owner hun
    intro u hu
    dsimp only at hu ⊢
    rcases unlock_shape hun with ⟨h1, hid, hwo, _, _⟩ | ⟨h1, hid, hwo⟩
    · rw [hid, hw] at hu
      have hut : u = t := (Option.some_inj.mp hu.symm)
      subst hut
      obtain ⟨hne, hlast, hlen⟩ := hi u hw
      rw [updWst_self]
      obtain ⟨a, r, hl⟩ := List.exists_cons_of_ne_nil hne
      have hl1 : 1 ≤ (g.wst u).length := List.length_pos.mpr hne
      have hlenne : (g.wst u).length ≠ 1 := by
        intro hc
        apply h1
        rw [hlen, hc]
      have hrne : r ≠ [] := by
        intro hc
        rw [hl, hc] at hlenne
        simp at hlenne
      have hsub : (g.wst u).length - 1 = r.length := by
        rw [hl]
        simp
      rw [hl] at hlast
      rw [hl]
      refine ⟨by simpa using hrne, ?_, ?_⟩
      · simp only [List.tail_cons]
        rw [← getLast?_cons_of_ne_nil a hrne]
        exact hlast
      · simp only [List.tail_cons]
        rw [hwo, hlen, dec32_mod hl1, hsub]
    · rw [hid] at hu
      exact absurd hu (by simp)
  | unlockSharedCall s' hph hun hcond heq =>
    subst heq
    intro u hu
    dsimp only at hu ⊢
    by_cases hw : g.sh.writerThreadId = some t
    · obtain ⟨hp, hid, hwo, _, _⟩ := unlockShared_writer_shape hw hun
      rw [hid, hw] at hu
      have hut : u = t := (Option.some_inj.mp hu.symm)
      subst hut
      obtain ⟨hne, hlast, hlen⟩ := hi u hw
      have hhd := hcond hw
      rw [updWst_self]
      unfold unlockSharedGhost
      rw [if_pos hw]
      obtain ⟨a, r, hl⟩ := List.exists_cons_of_ne_nil hne
      have hl1 : 1 ≤ (g.wst u).length := List.length_pos.mpr hne
      have ha : a = Acq.shrd := by
        rw [hl] at hhd
        simpa using hhd
      have hrne : r ≠ [] := by
        intro hc
        rw [hl, hc, ha] at hlast
        simp at hlast
      have hsub : (g.wst u).length - 1 = r.length := by
        rw [hl]
        simp
      rw [hl] at hlast
      rw [hl]
      refine ⟨by simpa using hrne, ?_, ?_⟩
      · simp only [List.tail_cons]
        rw [← getLast?_cons_of_ne_nil a hrne]
        exact hlast
      · simp only [List.tail_cons]
        rw [hwo, hlen, dec32_mod hl1, hsub]
    · obtain ⟨hid, hwo, _⟩ := unlockShared_not_owner_fields hw hun
      rw [hid] at hu
      have hut : u ≠ t := by
        intro hc; subst hc; exact hw hu
      obtain ⟨hne, hlast, hlen⟩ := hi u hu
      unfold unlockSharedGhost
      rw [if_neg hw, updWst_same]
      exact ⟨hne, hlast, by rw [hwo]; exact hlen⟩
  | tryLockCall hph heq =>
    subst heq
    intro u hu
    dsimp only at hu ⊢
    by_cases hw : g.sh.writerThreadId = some t
    · have heqf : tryLock g.sh t =
          (true, { g.sh with writersOwnership := inc32 g.sh.writersOwnership }) := by
        unfold tryLock
        rw [if_pos hw]
      have hgh : tryLockGhost g.sh t (g.wst t) = Acq.excl :: g.wst t := by
        simp [tryLockGhost, hw]
      rw [heqf] at hu ⊢
      dsimp only at hu ⊢
      have hut : u = t := by
        rw [hw] at hu; exact (Option.some_inj.mp hu).symm
      subst hut
      obtain ⟨hne, hlast, hlen⟩ := hi u hw
      rw [updWst_self, hgh]
      refine ⟨by simp, ?_, ?_⟩
      · rw [getLast?_cons_of_ne_nil _ hne]
        exact hlast
      · rw [hlen, List.length_cons]
        exact inc32_mod _
    · by_cases hb : g.sh.readersOwnership.length = 0 ∧ g.sh.writersOwnership = 0
      · have heqf : tryLock g.sh t =
            (true, { g.sh with writerThreadId := some t, writersOwnership := 1 }) := by
          unfold tryLock
          rw [if_neg hw, if_pos hb]
        have hgh : tryLockGhost g.sh t (g.wst t) = [Acq.excl] := by
          simp [tryLockGhost, hw, heqf]
        rw [heqf] at hu ⊢
        dsimp only at hu ⊢
        have hut : u = t := (Option.some_inj.mp hu.symm)
        subst hut
        rw [updWst_self, hgh]
        exact ⟨by simp, rfl, by norm_num⟩
      · have heqf : tryLock g.sh t = (false, g.sh) := by
          unfold tryLock
          rw [if_neg hw, if_neg hb]
        have hgh : tryLockGhost g.sh t (g.wst t) = g.wst t := by
          simp [tryLockGhost, hw, heqf]
        rw [heqf] at hu ⊢
        dsimp only at hu ⊢
        have hut : u ≠ t := by
          intro hc; subst hc; exact hw hu
        obtain ⟨hne, hlast, hlen⟩ := hi u hu
        rw [hgh, updWst_same]
        exact ⟨hne, hlast, hlen⟩
  | tryLockSharedCall hph heq =>
    subst heq
    intro u hu
    dsimp only at hu ⊢
    by_cases hw : g.sh.writerThreadId = some t
    · have heqf : tryLockShared g.sh t =
          (true, { g.sh with writersOwnership := inc32 g.sh.writersOwnership }) := by
        unfold tryLockShared
        rw [if_pos hw]
      rw [heqf] at hu ⊢
      dsimp only at hu ⊢
      have hut : u = t := by
        rw [hw] at hu; exact (Option.some_inj.mp hu).symm
      subst hut
      obtain ⟨hne, hlast, hlen⟩ := hi u hw
      rw [updWst_self]
      unfold trySharedGhost
      rw [if_pos hw]
      refine ⟨by simp, ?_, ?_⟩
      · rw [getLast?_cons_of_ne_nil _ hne]
        exact hlast
      · rw [hlen, List.length_cons]
        exact inc32_mod _
    · have hgh : trySharedGhost g.sh t (g.wst t) = g.wst t := by
        unfold trySharedGhost
        rw [if_neg hw]
      rw [hgh, updWst_same]
      by_cases hb : g.sh.writersOwnership = 0
      · have heqf : tryLockShared g.sh t =
            (true, { g.sh with readersOwnership := incKey g.sh.readersOwnership t }) := by
          unfold tryLockShared
          rw [if_neg hw, if_pos hb]
        rw [heqf] at hu ⊢
        dsimp only at hu ⊢
        exact hi u hu
      · have heqf : tryLockShared g.sh t = (false, g.sh) := by
          unfold tryLockShared
          rw [if_neg hw, if_neg hb]
        rw [heqf] at hu ⊢
        dsimp only at hu ⊢
        exact hi u hu

theorem inv_init : Inv init := by
  intro u hu
  exact absurd hu (by simp [init])

theorem inv_reachable {g : GState} (h : Reachable g) : Inv g := by
  induction h with
  | refl => exact inv_init
  | tail hr hstep ih =>
    obtain ⟨t, hst⟩ := hstep
    exact inv_step ih hst

end CV

namespace CV

theorem lockAcquire_phase (s : State) (t saved : Nat) :
    (lockAcquire s t saved).2 = Phase.waitR ∨ (lockAcquire s t saved).2 = Phase.idle := by
  unfold lockAcquire
  by_cases h : saved ≠ 0 <;> simp [h] <;> split <;> simp

theorem lockEnter_readers_ne {s : State} {t u : Nat} (h : u ≠ t) :
    findDepth (lockEnter s t).1.readersOwnership u = findDepth s.readersOwnership u := by
  unfold lockEnter
  by_cases hw : s.writerThreadId = some t
  · rw [if_pos hw]
  · rw [if_neg hw]
    cases hf : findDepth s.readersOwnership t with
    | some d =>
      dsimp only
      by_cases hwo : 0 < s.writersOwnership
      · rw [if_pos hwo]
        exact findDepth_eraseKey_ne _ h
      · rw [if_neg hwo, lockAcquire_readersOwnership]
        exact findDepth_eraseKey_ne _ h
    | none =>
      dsimp only
      by_cases hwo : 0 < s.writersOwnership
      · rw [if_pos hwo]
      · rw [if_neg hwo, lockAcquire_readersOwnership]

theorem lockEnter_readers_self {s : State} {t : Nat}
    (hf : findDepth s.readersOwnership t = none) :
    findDepth (lockEnter s t).1.readersOwnership t = findDepth s.readersOwnership t := by
  unfold lockEnter
  by_cases hw : s.writerThreadId = some t
  · rw [if_pos hw]
  · rw [if_neg hw, hf]
    dsimp only
    by_cases hwo : 0 < s.writersOwnership
    · rw [if_pos hwo]
      exact hf
    · rw [if_neg hwo, lockAcquire_readersOwnership]
      exact hf

theorem lockSharedEnter_readers_ne {s : State} {t u : Nat} (h : u ≠ t) :
    findDepth (lockSharedEnter s t).1.readersOwnership u = findDepth s.readersOwnership u := by
  unfold lockSharedEnter
  by_cases hw : s.writerThreadId = some t
  · rw [if_pos hw]
  · rw [if_neg hw]
    cases hf : findDepth s.readersOwnership t with
    | some d =>
      dsimp only
      exact findDepth_replaceKey_ne _ _ h
    | none =>
      dsimp only
      by_cases hwo : 0 < s.writersOwnership
      · rw [if_pos hwo]
      · rw [if_neg hwo]
        exact findDepth_emplaceKey_ne _ _ h

theorem lockSharedEnter_creates {s : State} {t : Nat}
    (hf : findDepth s.readersOwnership t = none)
    (hc : findDepth (lockSharedEnter s t).1.readersOwnership t ≠ none) :
    s.writersOwnership = 0 ∨ s.writerThreadId = some t := by
  by_cases hw : s.writerThreadId = some t
  · exact Or.inr hw
  · left
    by_contra hwo
    have hpos : 0 < s.writersOwnership := by omega
    unfold lockSharedEnter at hc
    rw [if_neg hw, hf] at hc
    dsimp only at hc
    rw [if_pos hpos] at hc
    exact hc hf

theorem unlock_readers_ne {s : State} {t u : Nat} {s' : State}
    (h : unlock s t = some s') (hne : u ≠ t) :
    findDepth s'.readersOwnership u = findDepth s.readersOwnership u := by
  unfold unlock at h
  split at h
  · exact absurd h (by simp)
  · split at h
    · rw [Option.some_inj] at h
      rw [← h]
    · rw [Option.some_inj] at h
      rw [← h]
      by_cases hr : s.readerOwnershipBeforeUpgrade ≠ 0
      · dsimp only
        rw [if_pos hr]
        exact findDepth_setKey_ne _ _ hne
      · dsimp only
        rw [if_neg hr]

theorem unlockShared_readers_ne {s : State} {t u : Nat} {s' : State}
    (h : unlockShared s t = some s') (hne : u ≠ t) :
    findDepth s'.readersOwnership u = findDepth s.readersOwnership u := by
  unfold unlockShared at h
  split at h
  · split at h
    · rw [Option.some_inj] at h
      rw [← h]
    · exact absurd h (by simp)
  · split at h
    · exact absurd h (by simp)
    · split at h
      · rw [Option.some_inj] at h
        rw [← h]
        exact findDepth_replaceKey_ne _ _ hne
      · rw [Option.some_inj] at h
        rw [← h]
        exact findDepth_eraseKey_ne _ hne

theorem tryLock_readers (s : State) (t : Nat) :
    (tryLock s t).2.readersOwnership = s.readersOwnership := by
  unfold tryLock
  split
  · rfl
  · split
    · rfl
    · rfl

theorem tryLockShared_readers_ne {s : State} {t u : Nat} (h : u ≠ t) :
    findDepth (tryLockShared s t).2.readersOwnership u = findDepth s.readersOwnership u := by
  unfold tryLockShared
  split
  · rfl
  · split
    · exact findDepth_incKey_ne _ h
    · rfl

end CV

theorem updPh_updPh (f : Nat → Phase) (t : Nat) (p q : Phase) :
    updPh (updPh f t p) t q = updPh f t q := by
  funext u
  by_cases h : u = t <;> simp [updPh, h]

theorem updWst_updWst (f : Nat → List Acq) (t : Nat) (l l2 : List Acq) :
    updWst (updWst f t l) t l2 = updWst f t l2 := by
  funext u
  by_cases h : u = t <;> simp [updWst, h]

theorem cvRelock_reachable : ∀ k, CV.Reachable (cvRelock k) := by
  intro k
  induction k with
  | zero =>
    apply Relation.ReflTransGen.single
    refine ⟨0, CV.Step.lockCall (cvRelock 0) rfl ?_⟩
    have h1 : CV.lockEnter CV.init.sh 0 = (⟨some 0, 1, 0, []⟩, Phase.idle) := by
      simp [CV.lockEnter, CV.lockAcquire, CV.init, findDepth]
    have h2 : CV.lockGhost CV.init.sh 0 (CV.init.wst 0) = [Acq.excl] := by
      simp [CV.lockGhost, CV.init]
    rw [h1, h2]
    unfold cvRelock
    dsimp only
    congr 1
  | succ k ih =>
    apply Relation.ReflTransGen.tail ih
    refine ⟨0, CV.Step.lockCall (cvRelock (k + 1)) rfl ?_⟩
    have hown : (cvRelock k).sh.writerThreadId = some 0 := rfl
    have h1 := CV.lockEnter_owner hown
    have h2 : CV.lockGhost (cvRelock k).sh 0 ((cvRelock k).wst 0) =
        Acq.excl :: (cvRelock k).wst 0 := by
      unfold CV.lockGhost
      rw [if_pos hown]
    rw [h1, h2]
    dsimp only
    unfold cvRelock
    dsimp only
    congr 1
    · congr 1
      rw [inc32_mod]
      omega
    · rw [updPh_updPh]
    · rw [updWst_updWst, updWst_self, List.replicate_succ]

theorem cvRelock_wrap_sh : (cvRelock 4294967295).sh = ⟨some 0, 0, 0, []⟩ := by
  unfold cvRelock
  norm_num

/-- C1 counterexample: the stored writer depth is a uint32_t, so after
exactly 2^32 disciplined nested `lock()` calls by one thread the counter
wraps to 0 while `m_writerThreadId` stays set — a reachable configuration in
which a thread is writer owner with writer depth 0, and in which another
thread's `lock()` (and `try_lock()`) immediately acquires exclusive
ownership even though the first thread has made no `unlock()` call. -/
theorem claim1_counterexample :
    ∃ g : CV.GState, CV.Reachable g ∧
      g.sh.writerThreadId = some 0 ∧
      g.sh.writersOwnership = 0 ∧
      CV.lockEnter g.sh 1 = (⟨some 1, 1, 0, []⟩, Phase.idle) ∧
      CV.tryLock g.sh 1 = (true, ⟨some 1, 1, 0, []⟩) := by
  refine ⟨cvRelock 4294967295, cvRelock_reachable 4294967295, ?_, ?_, ?_, ?_⟩
  · rw [cvRelock_wrap_sh]
  · rw [cvRelock_wrap_sh]
  · rw [cvRelock_wrap_sh]
    decide
  · rw [cvRelock_wrap_sh]
    decide

/-- C1 (amended): Mutual exclusion of exclusive holds.  In every reachable
configuration of the condition-variable variant, at most one thread is the
writer owner; and the owner's stored `m_writersOwnership` is positive
whenever its number of open nested acquisitions is below 2^32 — i.e. as long
as the uint32_t depth counter has not wrapped; at exactly 2^32 nested
`lock()` calls it wraps to 0 with the owner field still set (see the
counterexample). -/
theorem claim1_mutual_exclusion (g : CV.GState) (h : CV.Reachable g) :
    (∀ t u, CV.holdsExclusive g t → CV.holdsExclusive g u → t = u) ∧
    (∀ t, CV.holdsExclusive g t → (g.wst t).length < 4294967296 →
      0 < g.sh.writersOwnership) := by
  have hi := CV.inv_reachable h
  constructor
  · intro t u ht hu
    unfold CV.holdsExclusive at ht hu
    rw [ht] at hu
    exact Option.some_inj.mp hu
  · intro t ht hlen
    obtain ⟨hne, hlast, hlw⟩ := hi t ht
    rw [hlw, Nat.mod_eq_of_lt hlen]
    exact List.length_pos.mpr hne

/-- Witness for C1: the configuration after thread 5 wins `try_lock()` on a
fresh mutex is reachable, has an exclusive holder with one open hold, and
satisfies the mutual exclusion property. -/
theorem claim1_witness :
    ((∀ t u, CV.holdsExclusive cvWit1 t → CV.holdsExclusive cvWit1 u → t = u) ∧
     (∀ t, CV.holdsExclusive cvWit1 t → (cvWit1.wst t).length < 4294967296 →
       0 < cvWit1.sh.writersOwnership)) ∧
    CV.holdsExclusive cvWit1 5 ∧ (cvWit1.wst 5).length < 4294967296 := by
  refine ⟨claim1_mutual_exclusion cvWit1 ?_, rfl, by decide⟩
  exact Relation.ReflTransGen.single ⟨5, CV.Step.tryLockCall cvWit1 rfl rfl⟩

/-- C6: Writer priority in the fairness variant.  Along any step of the
condition-variable variant, reader entries of threads other than the stepping
thread are untouched, and a step that creates a new reader entry for its
thread can only happen when no writer is active or announced
(`m_writersOwnership = 0`), or when the thread itself is the writer (the nested
write-implied case, and the restore performed by its final `unlock()`).  In
particular a new reader never enters while another thread's writer depth is
nonzero. -/
theorem claim6_writer_priority (t : Nat) (g g' : CV.GState) (hs : CV.Step t g g') :
    (∀ u, u ≠ t →
      findDepth g'.sh.readersOwnership u = findDepth g.sh.readersOwnership u) ∧
    (findDepth g.sh.readersOwnership t = none →
      findDepth g'.sh.readersOwnership t ≠ none →
      g.sh.writersOwnership = 0 ∨ g.sh.writerThreadId = some t) := by
  cases hs with
  | lockCall hph heq =>
    subst heq
    constructor
    · intro u hu
      exact CV.lockEnter_readers_ne hu
    · intro hn hc
      exact absurd (by rw [CV.lockEnter_readers_self hn]; exact hn) hc
  | lockResumeW saved hph hw0 heq =>
    subst heq
    constructor
    · intro u hu
      dsimp only
      rw [CV.lockAcquire_readersOwnership]
    · intro hn hc
      exact Or.inl hw0
  | lockResumeR hph hr heq =>
    subst heq
    exact ⟨fun u hu => rfl, fun hn hc => absurd hn hc⟩
  | sharedCall hph heq =>
    subst heq
    constructor
    · intro u hu
      exact CV.lockSharedEnter_readers_ne hu
    · intro hn hc
      exact (CV.lockSharedEnter_creates hn hc).imp id id
  | sharedResume hph hw0 heq =>
    subst heq
    exact ⟨fun u hu => findDepth_emplaceKey_ne _ _ hu, fun hn hc => Or.inl hw0⟩
  | unlockCall s' hph hun hhd heq =>
    subst heq
    exact ⟨fun u hu => CV.unlock_readers_ne hun hu,
           fun hn hc => Or.inr (CV.unlock_owner hun)⟩
  | unlockSharedCall s' hph hun hcond heq =>
    subst heq
    constructor
    · intro u hu
      exact CV.unlockShared_readers_ne hun hu
    · intro hn hc
      by_cases hw : g.sh.writerThreadId = some t
      · exact Or.inr hw
      · exfalso
        unfold CV.unlockShared at hun
        rw [if_neg hw, hn] at hun
        exact absurd hun (by simp)
  | tryLockCall hph heq =>
    subst heq
    constructor
    · intro u hu
      dsimp only
      rw [CV.tryLock_readers]
    · intro hn hc
      dsimp only at hc
      rw [CV.tryLock_readers] at hc
      exact absurd hn hc
  | tryLockSharedCall hph heq =>
    subst heq
    constructor
    · intro u hu
      exact CV.tryLockShared_readers_ne hu
    · intro hn hc
      by_cases hw : g.sh.writerThreadId = some t
      · exact Or.inr hw
      · by_cases hb : g.sh.writersOwnership = 0
        · exact Or.inl hb
        · exfalso
          have heqf : CV.tryLockShared g.sh t = (false, g.sh) := by
            unfold CV.tryLockShared
            rw [if_neg hw, if_neg hb]
          dsimp only at hc
          rw [heqf] at hc
          exact absurd hn hc

/-- Witness for C6: thread 2 performing `lock_shared()` on the fresh mutex is
a concrete step creating a new reader entry; the theorem yields that the
writer depth was 0 there. -/
theorem claim6_witness :
    CV.init.sh.writersOwnership = 0 ∨ CV.init.sh.writerThreadId = some 2 := by
  refine (claim6_writer_priority 2 CV.init
    ⟨(CV.lockSharedEnter CV.init.sh 2).1, updPh CV.init.ph 2 (CV.lockSharedEnter CV.init.sh 2).2,
     updWst CV.init.wst 2 (CV.sharedGhost CV.init.sh 2 (CV.init.wst 2))⟩
    (CV.Step.sharedCall _ rfl rfl)).2 rfl ?_
  intro hc
  exact absurd hc (by decide)

/-- C10: In the fairness variant, a `try_lock_shared()` call by a thread that
is not the writer owner succeeds exactly when the writer depth is 0, in which
case it performs `++m_readersOwnership[t]` (incrementing an existing entry or
creating one at 1); when any writer is active or announced it fails and
changes nothing, even for a caller that already holds shared access — although
the blocking `lock_shared()` would succeed immediately (without waiting) for
that caller in the very same state. -/
theorem claim10_try_lock_shared (s : CV.State) (t : Nat)
    (hw : s.writerThreadId ≠ some t) :
    ((CV.tryLockShared s t).1 = true ↔ s.writersOwnership = 0) ∧
    (s.writersOwnership = 0 →
      (CV.tryLockShared s t).2 =
        { s with readersOwnership := incKey s.readersOwnership t }) ∧
    (0 < s.writersOwnership → CV.tryLockShared s t = (false, s)) ∧
    (∀ d, findDepth s.readersOwnership t = some d →
      CV.lockSharedEnter s t =
        ({ s with readersOwnership := replaceKey s.readersOwnership t (inc32 d) },
         Phase.idle)) := by
  refine ⟨?_, ?_, ?_, ?_⟩
  · by_cases hb : s.writersOwnership = 0
    · unfold CV.tryLockShared
      rw [if_neg hw, if_pos hb]
      simp [hb]
    · unfold CV.tryLockShared
      rw [if_neg hw, if_neg hb]
      simp [hb]
  · intro hb
    unfold CV.tryLockShared
    rw [if_neg hw, if_pos hb]
  · intro hb
    unfold CV.tryLockShared
    rw [if_neg hw, if_neg (by omega)]
  · intro d hd
    unfold CV.lockSharedEnter
    rw [if_neg hw, hd]

/-- Witness for C10: with thread 9 the announced writer at depth 1 and thread
4 holding shared access at depth 2, thread 4's `try_lock_shared()` fails with
no state change while its blocking `lock_shared()` would succeed immediately. -/
theorem claim10_witness :
    (((CV.tryLockShared ⟨some 9, 1, 0, [(4, 2)]⟩ 4).1 = true ↔
        CV.State.writersOwnership ⟨some 9, 1, 0, [(4, 2)]⟩ = 0) ∧
      (CV.State.writersOwnership ⟨some 9, 1, 0, [(4, 2)]⟩ = 0 →
        (CV.tryLockShared ⟨some 9, 1, 0, [(4, 2)]⟩ 4).2 =
          { (⟨some 9, 1, 0, [(4, 2)]⟩ : CV.State) with
              readersOwnership := incKey [(4, 2)] 4 }) ∧
      (0 < CV.State.writersOwnership ⟨some 9, 1, 0, [(4, 2)]⟩ →
        CV.tryLockShared ⟨some 9, 1, 0, [(4, 2)]⟩ 4 = (false, ⟨some 9, 1, 0, [(4, 2)]⟩)) ∧
      (∀ d, findDepth [(4, 2)] 4 = some d →
        CV.lockSharedEnter ⟨some 9, 1, 0, [(4, 2)]⟩ 4 =
          ({ (⟨some 9, 1, 0, [(4, 2)]⟩ : CV.State) with
              readersOwnership := replaceKey [(4, 2)] 4 (inc32 d) }, Phase.idle))) :=
  claim10_try_lock_shared ⟨some 9, 1, 0, [(4, 2)]⟩ 4 (by decide)

/-- C7: try_lock refuses an upgrade.  In both header variants, a thread that
holds shared-only access (reader depth at least 1, not the writer) gets false
from `try_lock()` with the state unchanged. -/
theorem claim7_try_lock_no_upgrade :
    (∀ (s : CV.State) (t D : Nat), 1 ≤ D →
      findDepth s.readersOwnership t = some D →
      s.writerThreadId ≠ some t →
      CV.tryLock s t = (false, s)) ∧
    (∀ (l : Fast.TL) (g : Fast.Gate), l.g_writers = 0 → 0 < l.g_readers →
      Fast.tryLock l g = (false, l, g)) := by
  constructor
  · intro s t D hD hf hw
    have hne : s.readersOwnership ≠ [] := findDepth_some_ne_nil hf
    have hlen : ¬(s.readersOwnership.length = 0 ∧ s.writersOwnership = 0) := by
      intro ⟨h0, _⟩
      exact hne (List.length_eq_zero.mp h0)
    unfold CV.tryLock
    rw [if_neg hw, if_neg hlen]
  · intro l g hw hr
    unfold Fast.tryLock
    rw [if_neg (by omega), if_pos hr]

/-- Witness for C7: a thread holding shared depth 3 in each variant gets
false and an unchanged state. -/
theorem claim7_witness :
    CV.tryLock ⟨none, 0, 0, [(6, 3)]⟩ 6 = (false, ⟨none, 0, 0, [(6, 3)]⟩) ∧
    Fast.tryLock ⟨3, 0⟩ ⟨false, 1⟩ = (false, ⟨3, 0⟩, ⟨false, 1⟩) :=
  ⟨(claim7_try_lock_no_upgrade.1 ⟨none, 0, 0, [(6, 3)]⟩ 6 3 (by decide) (by decide)
      (by decide)),
   (claim7_try_lock_no_upgrade.2 ⟨3, 0⟩ ⟨false, 1⟩ (by decide) (by decide))⟩

/-- C5: Non-blocking atomicity of the try operations.  In both header
variants, each successful `try_lock()` / `try_lock_shared()` performs exactly
the bookkeeping the corresponding blocking call performs in that state (which
then completes without waiting), and each failing call returns false leaving
the entire state — every counter and the writer-owner field — unchanged. -/
theorem claim5_try_atomicity :
    (∀ (s : CV.State) (t : Nat), s.writerThreadId = some t →
      CV.tryLock s t = (true, (CV.lockEnter s t).1) ∧
      (CV.lockEnter s t).2 = Phase.idle) ∧
    (∀ (s : CV.State) (t : Nat), s.writerThreadId ≠ some t →
      s.readersOwnership.length = 0 → s.writersOwnership = 0 →
      CV.tryLock s t = (true, (CV.lockEnter s t).1) ∧
      (CV.lockEnter s t).2 = Phase.idle) ∧
    (∀ (s : CV.State) (t : Nat), s.writerThreadId ≠ some t →
      ¬(s.readersOwnership.length = 0 ∧ s.writersOwnership = 0) →
      CV.tryLock s t = (false, s)) ∧
    (∀ (s : CV.State) (t : Nat), s.writerThreadId = some t →
      CV.tryLockShared s t = (true, (CV.lockSharedEnter s t).1) ∧
      (CV.lockSharedEnter s t).2 = Phase.idle) ∧
    (∀ (s : CV.State) (t : Nat), s.writerThreadId ≠ some t → s.writersOwnership = 0 →
      CV.tryLockShared s t = (true, (CV.lockSharedEnter s t).1) ∧
      (CV.lockSharedEnter s t).2 = Phase.idle) ∧
    (∀ (s : CV.State) (t : Nat), s.writerThreadId ≠ some t → s.writersOwnership ≠ 0 →
      CV.tryLockShared s t = (false, s)) ∧
    (∀ (l : Fast.TL) (g : Fast.Gate), 0 < l.g_writers →
      Fast.tryLock l g = (true, { l with g_writers := l.g_writers + 1 }, g) ∧
      Fast.lock l g = some ({ l with g_writers := l.g_writers + 1 }, g)) ∧
    (∀ (l : Fast.TL) (g : Fast.Gate), l.g_writers = 0 → l.g_readers = 0 →
      g.writer = false → g.readers = 0 →
      Fast.tryLock l g =
        (true, { l with g_writers := l.g_writers + 1 }, { g with writer := true }) ∧
      Fast.lock l g =
        some ({ l with g_writers := l.g_writers + 1 }, { g with writer := true })) ∧
    (∀ (l : Fast.TL) (g : Fast.Gate), l.g_writers = 0 → l.g_readers = 0 →
      ¬(g.writer = false ∧ g.readers = 0) →
      Fast.tryLock l g = (false, l, g)) ∧
    (∀ (l : Fast.TL) (g : Fast.Gate), 0 < l.g_writers ∨ 0 < l.g_readers →
      ∃ p, Fast.lockShared l g = some p ∧ Fast.tryLockShared l g = (true, p.1, p.2)) ∧
    (∀ (l : Fast.TL) (g : Fast.Gate), l.g_writers = 0 → l.g_readers = 0 →
      g.writer = false →
      Fast.tryLockShared l g =
        (true, { l with g_readers := l.g_readers + 1 }, { g with readers := g.readers + 1 }) ∧
      Fast.lockShared l g =
        some ({ l with g_readers := l.g_readers + 1 }, { g with readers := g.readers + 1 })) ∧
    (∀ (l : Fast.TL) (g : Fast.Gate), l.g_writers = 0 → l.g_readers = 0 →
      g.writer = true →
      Fast.tryLockShared l g = (false, l, g)) := by
  refine ⟨?_, ?_, ?_, ?_, ?_, ?_, ?_, ?_, ?_, ?_, ?_, ?_⟩
  · intro s t hw
    constructor
    · unfold CV.tryLock
      rw [if_pos hw, CV.lockEnter_owner hw]
    · rw [CV.lockEnter_owner hw]
  · intro s t hw hlen hwo
    have hnil : s.readersOwnership = [] := List.length_eq_zero.mp hlen
    have hfe : findDepth s.readersOwnership t = none := by rw [hnil]; rfl
    have hle : CV.lockEnter s t =
        ({ s with writerThreadId := some t, writersOwnership := 1 }, Phase.idle) := by
      simp [CV.lockEnter, CV.lockAcquire, findDepth, hw, hnil, hwo]
    constructor
    · unfold CV.tryLock
      rw [if_neg hw, if_pos (And.intro hlen hwo), hle]
    · rw [hle]
  · intro s t hw hb
    unfold CV.tryLock
    rw [if_neg hw, if_neg hb]
  · intro s t hw
    constructor
    · unfold CV.tryLockShared
      rw [if_pos hw, CV.lockSharedEnter_owner hw]
    · rw [CV.lockSharedEnter_owner hw]
  · intro s t hw hwo
    have hle : (CV.lockSharedEnter s t).1 =
        { s with readersOwnership := incKey s.readersOwnership t } ∧
        (CV.lockSharedEnter s t).2 = Phase.idle := by
      unfold CV.lockSharedEnter incKey
      rw [if_neg hw]
      cases hf : findDepth s.readersOwnership t with
      | some d => exact ⟨rfl, rfl⟩
      | none =>
        dsimp only
        rw [if_neg (by omega)]
        constructor
        · unfold emplaceKey
          rw [hf]
        · rfl
    constructor
    · unfold CV.tryLockShared
      rw [if_neg hw, if_pos hwo, Prod.ext_iff]
      exact ⟨rfl, hle.1.symm⟩
    · exact hle.2
  · intro s t hw hwo
    unfold CV.tryLockShared
    rw [if_neg hw, if_neg hwo]
  · intro l g hw
    have hne : l.g_writers ≠ 0 := by omega
    exact ⟨by simp [Fast.tryLock, hw], by simp [Fast.lock, hne]⟩
  · intro l g hlw hlr hgw hgr
    exact ⟨by simp [Fast.tryLock, Fast.gateTryLock, hlw, hlr, hgw, hgr],
           by simp [Fast.lock, Fast.gateLock, hlw, hlr, hgw, hgr]⟩
  · intro l g hlw hlr hb
    simp [Fast.tryLock, Fast.gateTryLock, hlw, hlr, hb]
  · intro l g hor
    by_cases hw : 0 < l.g_writers
    · refine ⟨({ l with g_writers := l.g_writers + 1 }, g), ?_, ?_⟩
      · simp [Fast.lockShared, hw]
      · simp [Fast.tryLockShared, Fast.lockShared, hw]
    · have hr : 0 < l.g_readers := by
        rcases hor with h | h
        · exact absurd h hw
        · exact h
      refine ⟨({ l with g_readers := l.g_readers + 1 }, g), ?_, ?_⟩
      · simp [Fast.lockShared, hw, hr]
      · simp [Fast.tryLockShared, Fast.lockShared, hw, hr]
  · intro l g hlw hlr hgw
    exact ⟨by simp [Fast.tryLockShared, Fast.gateTryLockShared, hlw, hlr, hgw],
           by simp [Fast.lockShared, Fast.gateLockShared, hlw, hlr, hgw]⟩
  · intro l g hlw hlr hgw
    simp [Fast.tryLockShared, Fast.gateTryLockShared, hlw, hlr, hgw]

/-- Witness for C5: concrete checks of the equivalences at small states: a
writer at depth 2 try-locking reentrantly, and a failing try_lock against an
active reader. -/
theorem claim5_witness :
    CV.tryLock ⟨some 4, 2, 0, []⟩ 4 = (true, (CV.lockEnter ⟨some 4, 2, 0, []⟩ 4).1) ∧
    CV.tryLock ⟨none, 0, 0, [(8, 1)]⟩ 4 = (false, ⟨none, 0, 0, [(8, 1)]⟩) ∧
    Fast.tryLock ⟨0, 0⟩ ⟨true, 0⟩ = (false, ⟨0, 0⟩, ⟨true, 0⟩) :=
  ⟨(claim5_try_atomicity.1 ⟨some 4, 2, 0, []⟩ 4 rfl).1,
   claim5_try_atomicity.2.2.1 ⟨none, 0, 0, [(8, 1)]⟩ 4 (by decide) (by decide),
   claim5_try_atomicity.2.2.2.2.2.2.2.2.1 ⟨0, 0⟩ ⟨true, 0⟩ rfl rfl (by decide)⟩

theorem updPh_self (f : Nat → Phase) (t : Nat) (p : Phase) : updPh f t p t = p := by
  simp [updPh]

theorem updPh_ne (f : Nat → Phase) (t : Nat) (p : Phase) {u : Nat} (h : u ≠ t) :
    updPh f t p u = f u := by
  simp [updPh, h]

namespace Cpp

theorem acquire_keeps_readers (s : State) (t : Nat) :
    (lockAcquire s t).1.readersOwnership = s.readersOwnership := by
  unfold lockAcquire
  dsimp only
  split
  · rfl
  · rfl

theorem lockEnter_readers (s : State) (t : Nat) :
    (lockEnter s t).1.readersOwnership = s.readersOwnership := by
  unfold lockEnter
  by_cases hw : s.writerThreadId = some t
  · rw [if_pos hw]
  · rw [if_neg hw]
    by_cases hwo : 0 < s.writersOwnership
    · rw [if_pos hwo]
    · rw [if_neg hwo]
      exact acquire_keeps_readers s t

theorem sharedEnter_find_ne {s : State} {t u : Nat} (h : u ≠ t) :
    findDepth (lockSharedEnter s t).1.readersOwnership u = findDepth s.readersOwnership u := by
  unfold lockSharedEnter
  by_cases hw : s.writerThreadId = some t
  · rw [if_pos hw]
  · rw [if_neg hw]
    cases hf : findDepth s.readersOwnership t with
    | some d =>
      dsimp only
      exact findDepth_replaceKey_ne _ _ h
    | none =>
      dsimp only
      by_cases hwo : 0 < s.writersOwnership
      · rw [if_pos hwo]
      · rw [if_neg hwo]
        exact findDepth_emplaceKey_ne _ _ h

theorem unlock_readers {s : State} {t : Nat} {s' : State} (h : unlock s t = some s') :
    s'.readersOwnership = s.readersOwnership := by
  unfold unlock at h
  split at h
  · exact absurd h (by simp)
  · split at h
    · rw [Option.some_inj] at h
      rw [← h]
    · rw [Option.some_inj] at h
      rw [← h]

theorem unlockShared_find_ne {s : State} {t u : Nat} {s' : State}
    (h : unlockShared s t = some s') (hne : u ≠ t) :
    findDepth s'.readersOwnership u = findDepth s.readersOwnership u := by
  unfold unlockShared at h
  split at h
  · split at h
    · rw [Option.some_inj] at h
      rw [← h]
    · exact absurd h (by simp)
  · split at h
    · exact absurd h (by simp)
    · split at h
      · rw [Option.some_inj] at h
        rw [← h]
        exact findDepth_replaceKey_ne _ _ hne
      · rw [Option.some_inj] at h
        rw [← h]
        exact findDepth_eraseKey_ne _ hne

theorem tryLock_keeps_readers (s : State) (t : Nat) :
    (tryLock s t).2.readersOwnership = s.readersOwnership := by
  unfold tryLock
  split
  · rfl
  · split
    · rfl
    · rfl

theorem tryLockShared_find_ne {s : State} {t u : Nat} (h : u ≠ t) :
    findDepth (tryLockShared s t).2.readersOwnership u = findDepth s.readersOwnership u := by
  unfold tryLockShared
  split
  · rfl
  · split
    · exact findDepth_incKey_ne _ h
    · rfl

theorem stuck_invariant {g : GState} (h : ReachableFromStuck g) :
    findDepth g.sh.readersOwnership 7 = some 1 ∧ g.ph 7 = Phase.waitR := by
  induction h with
  | refl => exact ⟨by decide, by decide⟩
  | tail hr hstep ih =>
    obtain ⟨u, hst⟩ := hstep
    obtain ⟨hfind, hph⟩ := ih
    by_cases hu : u = 7
    · subst hu
      cases hst with
      | lockCall hph2 heq => simp [hph] at hph2
      | lockResumeW saved hph2 hw0 heq => simp [hph] at hph2
      | lockResumeR hph2 hlen heq =>
        have hne := findDepth_some_ne_nil hfind
        exact absurd (List.length_eq_zero.mp hlen) hne
      | sharedCall hph2 heq => simp [hph] at hph2
      | sharedResume hph2 hw0 heq => simp [hph] at hph2
      | unlockCall s' hph2 hun heq => simp [hph] at hph2
      | unlockSharedCall s' hph2 hun heq => simp [hph] at hph2
      | tryLockCall hph2 heq => simp [hph] at hph2
      | tryLockSharedCall hph2 heq => simp [hph] at hph2
    · have h7u : (7 : Nat) ≠ u := fun hc => hu hc.symm
      cases hst with
      | lockCall hph2 heq =>
        subst heq
        constructor
        · dsimp only
          rw [lockEnter_readers]
          exact hfind
        · dsimp only
          rw [updPh_ne _ _ _ h7u]
          exact hph
      | lockResumeW saved hph2 hw0 heq =>
        subst heq
        constructor
        · dsimp only
          rw [acquire_keeps_readers]
          exact hfind
        · dsimp only
          rw [updPh_ne _ _ _ h7u]
          exact hph
      | lockResumeR hph2 hlen heq =>
        subst heq
        exact ⟨hfind, by dsimp only; rw [updPh_ne _ _ _ h7u]; exact hph⟩
      | sharedCall hph2 heq =>
        subst heq
        constructor
        · dsimp only
          rw [sharedEnter_find_ne h7u]
          exact hfind
        · dsimp only
          rw [updPh_ne _ _ _ h7u]
          exact hph
      | sharedResume hph2 hw0 heq =>
        subst heq
        constructor
        · dsimp only [sharedAcquire]
          rw [findDepth_emplaceKey_ne _ _ h7u]
          exact hfind
        · dsimp only
          rw [updPh_ne _ _ _ h7u]
          exact hph
      | unlockCall s' hph2 hun heq =>
        subst heq
        constructor
        · dsimp only
          rw [unlock_readers hun]
          exact hfind
        · exact hph
      | unlockSharedCall s' hph2 hun heq =>
        subst heq
        constructor
        · dsimp only
          rw [unlockShared_find_ne hun h7u]
          exact hfind
        · exact hph
      | tryLockCall hph2 heq =>
        subst heq
        constructor
        · dsimp only
          rw [tryLock_keeps_readers]
          exact hfind
        · exact hph
      | tryLockSharedCall hph2 heq =>
        subst heq
        constructor
        · dsimp only
          rw [tryLockShared_find_ne h7u]
          exact hfind
        · exact hph

end Cpp

/-- C2 counterexample: the claim fails for the recursive_shared_mutex variant
of src/shared_recursive_mutex.cpp.  There a thread (7) holding shared access
at depth D = 1, alone on the mutex, that calls `lock()` does not release its
own reader entry (the variant has no upgrade bookkeeping): the entry section
installs it as writer and blocks it on the read queue behind its own entry,
and in every configuration reachable from there — under steps by any threads —
thread 7 is still blocked in `lock()`, so the lock()-then-unlock() round trip
never completes; moreover this variant's `unlock()` restores no reader depth. -/
theorem claim2_counterexample :
    Cpp.lockEnter ⟨none, 0, [(7, 1)]⟩ 7 = (⟨some 7, 1, [(7, 1)]⟩, Phase.waitR) ∧
    (∀ g, Cpp.ReachableFromStuck g → g.ph 7 = Phase.waitR) ∧
    Cpp.unlock ⟨some 7, 1, []⟩ 7 = some ⟨none, 0, []⟩ := by
  refine ⟨by decide, ?_, by decide⟩
  intro g hg
  exact (Cpp.stuck_invariant hg).2

/-- C2 (amended): in the two header variants — the condition-variable variant
and the thread-local fast variant — a thread holding shared access at depth D
(and no exclusive access, no other thread active) that performs `lock()`
followed by one matching `unlock()` ends up holding shared access again at
exactly depth D, not zero and not D + 1; the standalone
src/shared_recursive_mutex.cpp variant lacks the upgrade path and its round
trip deadlocks instead. -/
theorem claim2_round_trip (t D : Nat) (hD : 1 ≤ D) :
    (CV.lockEnter ⟨none, 0, 0, [(t, D)]⟩ t = (⟨some t, 1, D, []⟩, Phase.idle) ∧
     CV.unlock ⟨some t, 1, D, []⟩ t = some ⟨none, 0, 0, [(t, D)]⟩) ∧
    (Fast.lock ⟨D, 0⟩ ⟨false, 1⟩ = some (⟨D, 1⟩, ⟨true, 0⟩) ∧
     Fast.unlock ⟨D, 1⟩ ⟨true, 0⟩ = some (⟨D, 0⟩, ⟨false, 1⟩)) := by
  have hD0 : D ≠ 0 := by omega
  refine ⟨⟨?_, ?_⟩, ?_, ?_⟩
  · simp [CV.lockEnter, CV.lockAcquire, findDepth, eraseKey, hD0]
  · simp [CV.unlock, setKey, findDepth, hD0]
  · simp [Fast.lock, Fast.gateLock, Fast.gateUnlockShared, hD0]
  · norm_num [Fast.unlock, Fast.gateUnlock, Fast.gateLockShared, dec32, hD0]

/-- Witness for C2 (amended): the round trip at thread 7, depth 2, in both
header variants. -/
theorem claim2_witness :
    (CV.lockEnter ⟨none, 0, 0, [(7, 2)]⟩ 7 = (⟨some 7, 1, 2, []⟩, Phase.idle) ∧
     CV.unlock ⟨some 7, 1, 2, []⟩ 7 = some ⟨none, 0, 0, [(7, 2)]⟩) ∧
    (Fast.lock ⟨2, 0⟩ ⟨false, 1⟩ = some (⟨2, 1⟩, ⟨true, 0⟩) ∧
     Fast.unlock ⟨2, 1⟩ ⟨true, 0⟩ = some (⟨2, 0⟩, ⟨false, 1⟩)) :=
  claim2_round_trip 7 2 (by decide)

/-- C9 counterexample: no variant treats an unmatched release as a silent
no-op with no observable state change.  The only variant that does not assert
is the thread-local fast one, and there an unmatched `unlock_shared()` (or
`unlock()`) from the empty state wraps the uint32_t thread-local counter to
4294967295 — an observable change: `is_locked_shared()` (resp. `is_locked()`)
flips from false to true. -/
theorem claim9_counterexample :
    Fast.unlockShared ⟨0, 0⟩ ⟨false, 0⟩ = some (⟨4294967295, 0⟩, ⟨false, 0⟩) ∧
    Fast.isLockedShared ⟨4294967295, 0⟩ = true ∧
    Fast.isLockedShared ⟨0, 0⟩ = false ∧
    Fast.unlock ⟨0, 0⟩ ⟨false, 0⟩ = some (⟨0, 4294967295⟩, ⟨false, 0⟩) ∧
    Fast.isLocked ⟨0, 4294967295⟩ = true ∧
    Fast.isLocked ⟨0, 0⟩ = false := by
  refine ⟨?_, by decide, by decide, ?_, by decide, by decide⟩
  · norm_num [Fast.unlockShared, Fast.unlock, dec32]
  · norm_num [Fast.unlock, dec32]

/-- C9 (amended): on an unmatched `unlock()` / `unlock_shared()` the two
monitor variants raise a fatal assertion (modelled: the call yields no
successor state), while the thread-local fast variant performs no check and
no gate operation but wraps its thread-local counter from 0 to 4294967295 —
not a silent no-op, since the change is observable through
`is_locked()` / `is_locked_shared()`. -/
theorem claim9_policies :
    CV.unlock ⟨none, 0, 0, []⟩ 2 = none ∧
    CV.unlockShared ⟨none, 0, 0, []⟩ 2 = none ∧
    Cpp.unlock ⟨none, 0, []⟩ 2 = none ∧
    Cpp.unlockShared ⟨none, 0, []⟩ 2 = none ∧
    Fast.unlock ⟨0, 0⟩ ⟨false, 0⟩ =
      some (⟨0, 4294967295⟩, ⟨false, 0⟩) ∧
    (⟨0, 4294967295⟩ : Fast.TL) ≠ (⟨0, 0⟩ : Fast.TL) ∧
    Fast.unlockShared ⟨0, 0⟩ ⟨false, 0⟩ =
      some (⟨4294967295, 0⟩, ⟨false, 0⟩) ∧
    (⟨4294967295, 0⟩ : Fast.TL) ≠ (⟨0, 0⟩ : Fast.TL) := by
  refine ⟨by decide, by decide, by decide, by decide, ?_, by decide, ?_, by decide⟩
  · norm_num [Fast.unlock, dec32]
  · norm_num [Fast.unlockShared, Fast.unlock, dec32]

/-- C8 counterexample: the claim fails once the uint32_t depth counter
wraps.  After 2^32 disciplined nested `lock()` calls the stored depth is 0;
a `lock_shared()` made while holding exclusive access brings it to 1, and the
matching `unlock_shared()` — exactly the hold most recently acquired while
exclusive — decrements it to 0, so `assert(m_writersOwnership > 0)` fires
(the call yields no successor state). -/
theorem claim8_counterexample :
    ∃ g : CV.GState, CV.Reachable g ∧
      g.sh.writerThreadId = some 0 ∧
      (g.wst 0).head? = some Acq.shrd ∧
      CV.unlockShared g.sh 0 = none := by
  have hown : (cvRelock 4294967295).sh.writerThreadId = some 0 := rfl
  have hsh2 : cvWrapShared.sh = ⟨some 0, 1, 0, []⟩ := by
    show (CV.lockSharedEnter (cvRelock 4294967295).sh 0).1 = _
    rw [cvRelock_wrap_sh]
    decide
  have hwst : cvWrapShared.wst 0 = Acq.shrd :: (cvRelock 4294967295).wst 0 := by
    show updWst (cvRelock 4294967295).wst 0
      (CV.sharedGhost (cvRelock 4294967295).sh 0 ((cvRelock 4294967295).wst 0)) 0 = _
    rw [updWst_self]
    unfold CV.sharedGhost
    rw [if_pos hown]
  refine ⟨cvWrapShared, ?_, ?_, ?_, ?_⟩
  · exact Relation.ReflTransGen.tail (cvRelock_reachable 4294967295)
      ⟨0, CV.Step.sharedCall cvWrapShared rfl rfl⟩
  · rw [hsh2]
  · rw [hwst]
    rfl
  · rw [hsh2]
    decide

/-- C8 (amended): In the fairness variant, `unlock_shared()` called by the
writer owner closes a nested write-implied shared hold: under the
precondition that the hold being closed is the thread's most recently
acquired open hold and was a `lock_shared()` made while it held exclusive
access (ghost stack head `shrd`), and provided the thread's number of open
holds is below 2^32 (the uint32_t depth has not wrapped — see the
counterexample for the wrapped case), the call decrements
`m_writersOwnership` and the depth stays strictly positive: the assert after
the decrement never fires. -/
theorem claim8_nested_unlock_shared (g : CV.GState) (t : Nat)
    (hreach : CV.Reachable g)
    (hw : g.sh.writerThreadId = some t)
    (hhd : (g.wst t).head? = some Acq.shrd)
    (hlen : (g.wst t).length < 4294967296) :
    ∃ s', CV.unlockShared g.sh t = some s' ∧
      s'.writersOwnership = g.sh.writersOwnership - 1 ∧
      0 < s'.writersOwnership := by
  have hi := CV.inv_reachable hreach
  obtain ⟨hne, hlast, hlw⟩ := hi t hw
  obtain ⟨a, r, hl⟩ := List.exists_cons_of_ne_nil hne
  have ha : a = Acq.shrd := by
    rw [hl] at hhd
    simpa using hhd
  have hrne : r ≠ [] := by
    intro hc
    rw [hl, hc, ha] at hlast
    simp at hlast
  have hrlen : 1 ≤ r.length := by
    have : r.length ≠ 0 := by
      intro hc
      exact hrne (List.length_eq_zero.mp hc)
    omega
  have hlen2 : 2 ≤ (g.wst t).length := by
    rw [hl, List.length_cons]
    omega
  have hwo2 : 2 ≤ g.sh.writersOwnership := by
    rw [hlw, Nat.mod_eq_of_lt hlen]
    exact hlen2
  have hwoM : g.sh.writersOwnership < 4294967296 := by
    rw [hlw]
    exact Nat.mod_lt _ (by norm_num)
  have hdec : dec32 g.sh.writersOwnership = g.sh.writersOwnership - 1 := by
    unfold dec32
    omega
  refine ⟨{ g.sh with writersOwnership := dec32 g.sh.writersOwnership }, ?_, ?_, ?_⟩
  · unfold CV.unlockShared
    rw [if_pos hw, if_pos (by rw [hdec]; omega)]
  · dsimp only
    rw [hdec]
  · dsimp only
    rw [hdec]
    omega

/-- Witness for C8: thread 3 acquires exclusively via `try_lock()`, then
calls `lock_shared()` while writer; the reachable configuration satisfies the
precondition (two open holds, far below 2^32) and the subsequent
`unlock_shared()` keeps the depth positive. -/
theorem claim8_witness :
    ∃ s', CV.unlockShared cvWit8b.sh 3 = some s' ∧
      s'.writersOwnership = cvWit8b.sh.writersOwnership - 1 ∧
      0 < s'.writersOwnership :=
  claim8_nested_unlock_shared cvWit8b 3
    (Relation.ReflTransGen.tail
      (Relation.ReflTransGen.single ⟨3, CV.Step.tryLockCall cvWit8a rfl rfl⟩)
      ⟨3, CV.Step.sharedCall cvWit8b rfl rfl⟩)
    rfl rfl (by decide)

theorem cvLockIter_mod (t : Nat) : ∀ (n m : Nat),
    cvLockIter t n ⟨some t, m % 4294967296, 0, []⟩ =
      ⟨some t, (m + n) % 4294967296, 0, []⟩ := by
  intro n
  induction n with
  | zero =>
    intro m
    simp [cvLockIter]
  | succ n ih =>
    intro m
    simp only [cvLockIter]
    rw [CV.lockEnter_owner rfl]
    dsimp only
    rw [inc32_mod, ih (m + 1)]
    have harith : m + 1 + n = m + (n + 1) := by omega
    rw [harith]

theorem cvUnlock_dec (t : Nat) {m : Nat} (hm : m ≠ 1) (hmM : m < 4294967296)
    (hm1 : 1 ≤ m) :
    CV.unlock ⟨some t, m, 0, []⟩ t = some ⟨some t, m - 1, 0, []⟩ := by
  have hd : dec32 m = m - 1 := by
    unfold dec32
    omega
  simp [CV.unlock, hm, hd]

theorem cvUnlock_full (t : Nat) :
    CV.unlock ⟨some t, 1, 0, []⟩ t = some ⟨none, 0, 0, []⟩ := by
  simp [CV.unlock]

theorem cvUnlockIter_dec (t : Nat) : ∀ (k m : Nat), k < m → m < 4294967296 →
    cvUnlockIter t k ⟨some t, m, 0, []⟩ = some ⟨some t, m - k, 0, []⟩ := by
  intro k
  induction k with
  | zero =>
    intro m hm hmM
    simp [cvUnlockIter]
  | succ k ih =>
    intro m hm hmM
    simp only [cvUnlockIter]
    rw [cvUnlock_dec t (by omega) (by omega) (by omega)]
    dsimp only
    rw [ih (m - 1) (by omega) (by omega)]
    have harith : m - 1 - k = m - (k + 1) := by omega
    rw [harith]

theorem cvUnlockIter_full (t : Nat) : ∀ m : Nat, m + 1 < 4294967296 →
    cvUnlockIter t (m + 1) ⟨some t, m + 1, 0, []⟩ = some ⟨none, 0, 0, []⟩ := by
  intro m
  induction m with
  | zero =>
    intro hM
    simp only [cvUnlockIter]
    rw [cvUnlock_full t]
  | succ m ih =>
    intro hM
    simp only [cvUnlockIter]
    rw [cvUnlock_dec t (by omega) (by omega) (by omega)]
    dsimp only
    have harith : m + 1 + 1 - 1 = m + 1 := by omega
    rw [harith]
    have hh := ih (by omega)
    simp only [cvUnlockIter] at hh
    exact hh

/-- C3 counterexample: the claim fails at N = 2^32.  Iterating `lock()`
exactly 2^32 times from the free state leaves the stored uint32_t depth at 0
(the 2^32-th call does not increment the depth by 1 — it wraps 4294967295 to
0); exclusive access is then available to other threads after zero `unlock()`
calls: thread 1's `try_lock()` succeeds and its `lock()` completes without
blocking. -/
theorem claim3_counterexample :
    cvLockIter 0 4294967296 ⟨none, 0, 0, []⟩ = ⟨some 0, 0, 0, []⟩ ∧
    CV.lockEnter ⟨some 0, 4294967295, 0, []⟩ 0 = (⟨some 0, 0, 0, []⟩, Phase.idle) ∧
    CV.tryLock ⟨some 0, 0, 0, []⟩ 1 = (true, ⟨some 1, 1, 0, []⟩) ∧
    CV.lockEnter ⟨some 0, 0, 0, []⟩ 1 = (⟨some 1, 1, 0, []⟩, Phase.idle) := by
  refine ⟨?_, ?_, ?_, ?_⟩
  · have key : ∀ M : Nat, cvLockIter 0 (M + 1) ⟨none, 0, 0, []⟩ =
        ⟨some 0, (1 + M) % 4294967296, 0, []⟩ := by
      intro M
      simp only [cvLockIter]
      have h1 : CV.lockEnter ⟨none, 0, 0, []⟩ 0 = (⟨some 0, 1, 0, []⟩, Phase.idle) := by
        simp [CV.lockEnter, CV.lockAcquire, findDepth]
      rw [h1]
      dsimp only
      have hst : (⟨some 0, 1, 0, []⟩ : CV.State) =
          ⟨some 0, 1 % 4294967296, 0, []⟩ := by norm_num
      rw [hst, cvLockIter_mod 0 M 1]
    have hdecomp : (4294967296 : Nat) = 4294967295 + 1 := by norm_num
    rw [hdecomp, key 4294967295]
  · have hinc : inc32 4294967295 = 0 := by
      unfold inc32
      norm_num
    rw [CV.lockEnter_owner rfl, hinc]
  · decide
  · decide

/-- C3 (amended): Reentrancy of exclusive acquisition in the monitor
variant, for nesting depths the uint32_t counter can represent (1 ≤ N <
2^32; at N = 2^32 the depth wraps, see the counterexample).  A reentrant
`lock()` by the current writer never blocks and — while the depth stays
below the wrap — adds exactly 1 to it; N nested `lock()` calls from the free
state leave thread `t` the writer at depth N; after k < N matching
`unlock()` calls the thread is still the writer at depth N - k and no other
thread can acquire in any mode (`try_lock` fails, `lock()` and
`lock_shared()` block); exactly at the Nth `unlock()` the mutex returns to
the free state. -/
theorem claim3_reentrancy (t N : Nat) (hN : 1 ≤ N) (hNM : N < 4294967296) :
    (∀ s : CV.State, s.writerThreadId = some t →
      (CV.lockEnter s t).2 = Phase.idle) ∧
    (∀ s : CV.State, s.writerThreadId = some t →
      s.writersOwnership + 1 < 4294967296 →
      CV.lockEnter s t =
        ({ s with writersOwnership := s.writersOwnership + 1 }, Phase.idle)) ∧
    cvLockIter t N ⟨none, 0, 0, []⟩ = ⟨some t, N, 0, []⟩ ∧
    (∀ k, k < N →
      cvUnlockIter t k ⟨some t, N, 0, []⟩ = some ⟨some t, N - k, 0, []⟩ ∧
      (∀ u, u ≠ t →
        CV.tryLock ⟨some t, N - k, 0, []⟩ u = (false, ⟨some t, N - k, 0, []⟩) ∧
        (CV.lockEnter ⟨some t, N - k, 0, []⟩ u).2 = Phase.waitW 0 ∧
        (CV.lockSharedEnter ⟨some t, N - k, 0, []⟩ u).2 = Phase.waitS)) ∧
    cvUnlockIter t N ⟨some t, N, 0, []⟩ = some ⟨none, 0, 0, []⟩ := by
  refine ⟨?_, ?_, ?_, ?_, ?_⟩
  · intro s hw
    rw [CV.lockEnter_owner hw]
  · intro s hw hsM
    rw [CV.lockEnter_owner hw]
    have hinc : inc32 s.writersOwnership = s.writersOwnership + 1 := by
      unfold inc32
      omega
    rw [hinc]
  · obtain ⟨M, rfl⟩ : ∃ M, N = M + 1 := ⟨N - 1, by omega⟩
    simp only [cvLockIter]
    have h1 : CV.lockEnter ⟨none, 0, 0, []⟩ t = (⟨some t, 1, 0, []⟩, Phase.idle) := by
      simp [CV.lockEnter, CV.lockAcquire, findDepth]
    rw [h1]
    dsimp only
    have hst : (⟨some t, 1, 0, []⟩ : CV.State) =
        ⟨some t, 1 % 4294967296, 0, []⟩ := by norm_num
    rw [hst, cvLockIter_mod t M 1]
    have harith : (1 + M) % 4294967296 = M + 1 := by omega
    rw [harith]
  · intro k hk
    refine ⟨cvUnlockIter_dec t k N hk hNM, ?_⟩
    intro u hu
    have hne : ¬((some t : Option Nat) = some u) := by
      intro hc
      exact hu (Option.some_inj.mp hc).symm
    refine ⟨?_, ?_, ?_⟩
    · unfold CV.tryLock
      rw [if_neg hne, if_neg (by rintro ⟨-, hc⟩; dsimp only at hc; omega)]
    · unfold CV.lockEnter
      rw [if_neg hne]
      simp only [findDepth]
      rw [if_pos (by omega : 0 < N - k)]
    · unfold CV.lockSharedEnter
      rw [if_neg hne]
      simp only [findDepth]
      rw [if_pos (by omega : 0 < N - k)]
  · obtain ⟨M, rfl⟩ : ∃ M, N = M + 1 := ⟨N - 1, by omega⟩
    exact cvUnlockIter_full t M hNM

/-- Witness for C3: thread 0 locking twice from the free state, checked at
depth 2. -/
theorem claim3_witness :
    ((∀ s : CV.State, s.writerThreadId = some 0 →
      (CV.lockEnter s 0).2 = Phase.idle) ∧
    (∀ s : CV.State, s.writerThreadId = some 0 →
      s.writersOwnership + 1 < 4294967296 →
      CV.lockEnter s 0 =
        ({ s with writersOwnership := s.writersOwnership + 1 }, Phase.idle)) ∧
    cvLockIter 0 2 ⟨none, 0, 0, []⟩ = ⟨some 0, 2, 0, []⟩ ∧
    (∀ k, k < 2 →
      cvUnlockIter 0 k ⟨some 0, 2, 0, []⟩ = some ⟨some 0, 2 - k, 0, []⟩ ∧
      (∀ u, u ≠ 0 →
        CV.tryLock ⟨some 0, 2 - k, 0, []⟩ u = (false, ⟨some 0, 2 - k, 0, []⟩) ∧
        (CV.lockEnter ⟨some 0, 2 - k, 0, []⟩ u).2 = Phase.waitW 0 ∧
        (CV.lockSharedEnter ⟨some 0, 2 - k, 0, []⟩ u).2 = Phase.waitS)) ∧
    cvUnlockIter 0 2 ⟨some 0, 2, 0, []⟩ = some ⟨none, 0, 0, []⟩) :=
  claim3_reentrancy 0 2 (by decide) (by decide)

namespace CV

theorem lockAcquire_upgradeField {s : State} {t saved : Nat} (h : saved ≠ 0) :
    (lockAcquire s t saved).1.readerOwnershipBeforeUpgrade = saved := by
  unfold lockAcquire
  rw [if_pos h]
  dsimp only
  split
  · rfl
  · rfl

theorem lockAcquire_phase_iff (s : State) (t saved : Nat) :
    ((lockAcquire s t saved).2 = Phase.idle ↔ s.readersOwnership = []) := by
  unfold lockAcquire
  by_cases h : saved ≠ 0
  · rw [if_pos h]
    dsimp only
    by_cases hl : s.readersOwnership.length ≠ 0
    · rw [if_pos hl]
      constructor
      · intro hc
        cases hc
      · intro hc
        rw [hc] at hl
        simp at hl
    · rw [if_neg hl]
      have hnil : s.readersOwnership = [] := List.length_eq_zero.mp (by omega)
      simp [hnil]
  · rw [if_neg h]
    dsimp only
    by_cases hl : s.readersOwnership.length ≠ 0
    · rw [if_pos hl]
      constructor
      · intro hc
        cases hc
      · intro hc
        rw [hc] at hl
        simp at hl
    · rw [if_neg hl]
      have hnil : s.readersOwnership = [] := List.length_eq_zero.mp (by omega)
      simp [hnil]

end CV

/-- C4: Upgrade semantics of `lock()`.  In the monitor variant, a thread `t`
that holds only shared access (depth D, not the writer) calling `lock()`
first releases its own reader entry; if another writer is active it blocks on
the write queue remembering D (and may resume only when the writer depth has
drained to 0); once past that wait it installs itself as writer at depth 1
with `m_readerOwnershipBeforeUpgrade = D`, returning immediately exactly when
no other reader remains (otherwise it blocks until the read map drains); the
remembered depth makes the final `unlock()` restore the thread's reader entry
at exactly D.  In the fast variant, the same upgrade releases the gate's
shared hold, succeeds exactly when no other reader holds the gate, keeps
`g_readers = D` as the memory of the pre-upgrade depth, and the final
`unlock()` re-acquires shared access. -/
theorem claim4_upgrade (s : CV.State) (t D : Nat) (hD : 1 ≤ D)
    (hw : s.writerThreadId ≠ some t)
    (hf : findDepth s.readersOwnership t = some D) :
    findDepth (CV.lockEnter s t).1.readersOwnership t = none ∧
    (0 < s.writersOwnership →
      (CV.lockEnter s t).1 =
        { s with readersOwnership := eraseKey s.readersOwnership t } ∧
      (CV.lockEnter s t).2 = Phase.waitW D) ∧
    (s.writersOwnership = 0 →
      (CV.lockEnter s t).1.writerThreadId = some t ∧
      (CV.lockEnter s t).1.writersOwnership = 1 ∧
      (CV.lockEnter s t).1.readerOwnershipBeforeUpgrade = D ∧
      ((CV.lockEnter s t).2 = Phase.idle ↔ eraseKey s.readersOwnership t = [])) ∧
    (∀ s2 : CV.State, s2.writerThreadId = some t → s2.writersOwnership = 1 →
      s2.readerOwnershipBeforeUpgrade = D →
      ∃ s3, CV.unlock s2 t = some s3 ∧
        findDepth s3.readersOwnership t = some D ∧
        s3.writerThreadId = none ∧ s3.writersOwnership = 0) ∧
    (∀ D2 rc : Nat, 1 ≤ D2 → 1 ≤ rc →
      (rc = 1 → Fast.lock ⟨D2, 0⟩ ⟨false, rc⟩ = some (⟨D2, 1⟩, ⟨true, 0⟩)) ∧
      (1 < rc → Fast.lock ⟨D2, 0⟩ ⟨false, rc⟩ = none) ∧
      Fast.unlock ⟨D2, 1⟩ ⟨true, 0⟩ = some (⟨D2, 0⟩, ⟨false, 1⟩)) := by
  have hD0 : D ≠ 0 := by omega
  have hkey : ∀ hwo : ¬0 < s.writersOwnership,
      CV.lockEnter s t =
        CV.lockAcquire { s with readersOwnership := eraseKey s.readersOwnership t } t D := by
    intro hwo
    unfold CV.lockEnter
    rw [if_neg hw, hf]
    dsimp only
    rw [if_neg hwo]
  have hkeyW : ∀ hwo : 0 < s.writersOwnership,
      CV.lockEnter s t =
        ({ s with readersOwnership := eraseKey s.readersOwnership t }, Phase.waitW D) := by
    intro hwo
    unfold CV.lockEnter
    rw [if_neg hw, hf]
    dsimp only
    rw [if_pos hwo]
  refine ⟨?_, ?_, ?_, ?_, ?_⟩
  · by_cases hwo : 0 < s.writersOwnership
    · rw [hkeyW hwo]
      exact findDepth_eraseKey_self _ _
    · rw [hkey hwo, CV.lockAcquire_readersOwnership]
      exact findDepth_eraseKey_self _ _
  · intro hwo
    rw [hkeyW hwo]
    exact ⟨rfl, rfl⟩
  · intro hwo
    have hwo2 : ¬0 < s.writersOwnership := by omega
    rw [hkey hwo2]
    refine ⟨CV.lockAcquire_writerThreadId _ _ _, CV.lockAcquire_writersOwnership _ _ _,
      CV.lockAcquire_upgradeField hD0, ?_⟩
    exact CV.lockAcquire_phase_iff _ t D
  · intro s2 hw2 hwo2 hr2
    refine ⟨⟨none, 0, 0, setKey s2.readersOwnership t D⟩, ?_, ?_, rfl, rfl⟩
    · simp [CV.unlock, hw2, hwo2, hr2, hD0]
    · exact findDepth_setKey_self _ t D
  · intro D2 rc hD2 hrc
    have hD20 : D2 ≠ 0 := by omega
    refine ⟨?_, ?_, ?_⟩
    · intro hrc1
      simp [Fast.lock, Fast.gateLock, Fast.gateUnlockShared, hD20, hrc1]
    · intro hrc1
      have : rc - 1 ≠ 0 := by omega
      simp [Fast.lock, Fast.gateLock, Fast.gateUnlockShared, hD20, this]
    · norm_num [Fast.unlock, Fast.gateUnlock, Fast.gateLockShared, dec32, hD20]

/-- Witness for C4: thread 7 upgrading from shared depth 2 while thread 8
still reads: its entry is dropped, it becomes writer at depth 1 remembering
2, but must wait on the read queue until thread 8 drains. -/
theorem claim4_witness :
    (findDepth (CV.lockEnter ⟨none, 0, 0, [(7, 2), (8, 1)]⟩ 7).1.readersOwnership 7 =
      none) ∧
    ((CV.lockEnter ⟨none, 0, 0, [(7, 2), (8, 1)]⟩ 7).1.writerThreadId = some 7 ∧
      (CV.lockEnter ⟨none, 0, 0, [(7, 2), (8, 1)]⟩ 7).1.writersOwnership = 1 ∧
      (CV.lockEnter ⟨none, 0, 0, [(7, 2), (8, 1)]⟩ 7).1.readerOwnershipBeforeUpgrade = 2 ∧
      ¬(CV.lockEnter ⟨none, 0, 0, [(7, 2), (8, 1)]⟩ 7).2 = Phase.idle) ∧
    (∃ s3, CV.unlock ⟨some 7, 1, 2, [(8, 1)]⟩ 7 = some s3 ∧
      findDepth s3.readersOwnership 7 = some 2 ∧
      s3.writerThreadId = none ∧ s3.writersOwnership = 0) := by
  have h := claim4_upgrade ⟨none, 0, 0, [(7, 2), (8, 1)]⟩ 7 2 (by decide) (by decide)
    (by decide)
  refine ⟨h.1, ?_, h.2.2.2.1 ⟨some 7, 1, 2, [(8, 1)]⟩ rfl rfl rfl⟩
  obtain ⟨ha, hb, hc, hd⟩ := h.2.2.1 rfl
  refine ⟨ha, hb, hc, ?_⟩
  intro hid
  have : eraseKey [(7, 2), (8, 1)] 7 = [] := hd.mp hid
  exact absurd this (by decide)
